import Mathlib

/-!
Shallow embedding of the `lazy` dependency-graph library (`lazy.hpp`):
source nodes (`root<T>`), memoized nodes (`node<F>`), uncached combinators
(`path<F>`), the downstream invalidation walk (`lazy_base::unset`), and the
`Graph` registry with `dump`/`load` snapshots.

Nodes are identified by their creation index into `St.nodes`.  A C++ weak
pointer is modelled by a node id together with the target's `live` flag;
destroying the last owning reference of a node is modelled by clearing the
flag.  Payload values live in a small closed universe `Val` (the snapshot
claims need at least two distinct payload types); a `std::any` holding a
`std::shared_ptr<const T>` is modelled as a pair of the type tag and an
optional payload (`none` = null pointer = empty slot).  Each node carries a
ghost counter `count` of how often its recomputation closure has been
invoked; the C++ has no such field, it only instruments the embedding.

Recursive walks (`unset` downstream, `get` upstream) are written with an
explicit fuel argument; on acyclic graphs (`Wf`) the fuel passed by the
top-level wrappers is sufficient, and cyclic graphs are outside the
library's contract (unbounded recursion in the C++).
-/

namespace lazy

/-- Declared payload types of nodes (`Type` parameters of `root<Type>` /
result types of `node<Function>`). -/
inductive Ty
| tint
| tbool
deriving DecidableEq

/-- Payload values. -/
inductive Val
| vint (n : Int)
| vbool (b : Bool)
deriving DecidableEq

instance : Inhabited Val := ⟨Val.vint 0⟩

/-- The three node species: `root` (source), `node` (memoized), `path`
(combinator). -/
inductive Kind
| source
| memo
| comb
deriving DecidableEq

/-- State of one node.  `fn` is the recomputation closure produced by
`function_wrapper` (irrelevant for sources), `ups` the ids of the upstream
nodes the closure captures strongly, `slot` the `std::shared_ptr<const
Type> value` member (`none` = null), `count` the ghost invocation counter,
`live` whether the object is still allocated, `downstream` the
`lazy_base::downstream` weak-pointer list. -/
structure NodeSt where
  kind : Kind
  ty : Ty
  fn : List Val → Val
  ups : List Nat
  slot : Option Val
  count : Nat
  live : Bool
  downstream : List Nat

/-- Whole-world state: the arena of all nodes ever created (id = index) and
the active `Graph`'s registry list `Graph::nodes`. -/
structure St where
  nodes : List NodeSt
  registry : List Nat

/-- Update the `i`-th element of a list in place (identity when out of
range). -/
def updAt : List NodeSt → Nat → (NodeSt → NodeSt) → List NodeSt
| [], _, _ => []
| x :: xs, 0, f => f x :: xs
| x :: xs, n + 1, f => x :: updAt xs n f

def St.upd (s : St) (i : Nat) (f : NodeSt → NodeSt) : St :=
  { s with nodes := updAt s.nodes i f }

/-- Resolve a weak/strong pointer to node `i`: `some` exactly when the node
exists and is still allocated (models `weak_ptr::lock` succeeding, or
calling through a live handle). -/
def St.node? (s : St) (i : Nat) : Option NodeSt :=
  match s.nodes.get? i with
  | some nd => if nd.live then some nd else none
  | none => none

def St.liveAt (s : St) (i : Nat) : Bool := (s.node? i).isSome

def St.kindAt (s : St) (i : Nat) : Option Kind := (s.nodes.get? i).map NodeSt.kind

def St.tyAt (s : St) (i : Nat) : Option Ty := (s.nodes.get? i).map NodeSt.ty

def St.upsAt (s : St) (i : Nat) : Option (List Nat) := (s.nodes.get? i).map NodeSt.ups

def St.slotAt (s : St) (i : Nat) : Option (Option Val) := (s.nodes.get? i).map NodeSt.slot

def St.countAt (s : St) (i : Nat) : Option Nat := (s.nodes.get? i).map NodeSt.count

def St.liveRawAt (s : St) (i : Nat) : Option Bool := (s.nodes.get? i).map NodeSt.live

def St.fnAt (s : St) (i : Nat) : Option (List Val → Val) := (s.nodes.get? i).map NodeSt.fn

def St.downAt (s : St) (i : Nat) : Option (List Nat) := (s.nodes.get? i).map NodeSt.downstream

/-- The `release()` override: clears the value slot for `root` and `node`,
no-op for `path`. -/
def release (n : NodeSt) : NodeSt :=
  match n.kind with
  | Kind.comb => n
  | _ => { n with slot := none }

def bumpC (n : NodeSt) : NodeSt := { n with count := n.count + 1 }

def setSlot (v? : Option Val) (n : NodeSt) : NodeSt := { n with slot := v? }

def slotUpd (s : St) (i : Nat) (v? : Option Val) : St := s.upd i (setSlot v?)

/-- The downstream-list walk of `unset`, parameterized by the recursive
unset call on a child: returns the updated state and the pruned list
(live entries are kept and recursively unset, dead ones erased). -/
def unsetWalk (rec : St → Nat → Bool → St) : St → List Nat → St × List Nat
| s, [] => (s, [])
| s, d :: rest =>
  if s.liveAt d then
    let s' := rec s d true
    let p := unsetWalk rec s' rest
    (p.1, d :: p.2)
  else
    unsetWalk rec s rest

/-- The downstream phase of `unset` on node `i`: walk its downstream list
with the recursive call `rec`, then write the pruned list back. -/
def unsetCore (rec : St → Nat → Bool → St) (s1 : St) (i : Nat) : St :=
  match s1.nodes.get? i with
  | none => s1
  | some nd =>
    let p := unsetWalk rec s1 nd.downstream
    p.1.upd i (fun n => { n with downstream := p.2 })

/-- `lazy_base::unset(unset_itself)`: run `release` on the node itself when
asked, then walk the downstream weak-pointer list, recursively unsetting
each live entry and erasing each dead one.  Structured as structural
recursion on an explicit fuel (the recursion depth); on an acyclic graph
any fuel beyond the number of nodes is enough. -/
def unsetFuel : Nat → St → Nat → Bool → St
| 0 => fun s _ _ => s
| f + 1 => fun s i self => unsetCore (unsetFuel f) (if self then s.upd i release else s) i

/-- Evaluate `args->get()...` left to right, threading the state and
failing as soon as one upstream read fails; parameterized by the recursive
`get` call on one upstream node. -/
def getWalk (rec : St → Nat → Option Val × St) : St → List Nat → Option (List Val) × St
| s, [] => (some [], s)
| s, u :: rest =>
  match (rec s u).1 with
  | some v =>
    match (getWalk rec (rec s u).2 rest).1 with
    | some vs => (some (v :: vs), (getWalk rec (rec s u).2 rest).2)
    | none => (none, (getWalk rec (rec s u).2 rest).2)
  | none => (none, (rec s u).2)

/-- `get()` dispatched on the node species, with the recursive upstream
read passed in as `rec`.
`root::get` returns `*value` (a `none` slot is a null dereference,
propagated as `none`); `path::get` always re-invokes the closure;
`node::get` invokes the closure and stores the result via the private
`set` (which first runs `unset()`, then installs the fresh value) only
when the cache slot is empty. -/
def getCore (rec : St → Nat → Option Val × St) (s : St) (i : Nat) : Option Val × St :=
  match s.node? i with
  | none => (none, s)
  | some nd =>
    match nd.kind with
    | Kind.source => (nd.slot, s)
    | Kind.comb =>
      match (getWalk rec s nd.ups).1 with
      | some vs => (some (nd.fn vs), ((getWalk rec s nd.ups).2).upd i bumpC)
      | none => (none, (getWalk rec s nd.ups).2)
    | Kind.memo =>
      match nd.slot with
      | some v => (some v, s)
      | none =>
        match (getWalk rec s nd.ups).1 with
        | some vs =>
          (some (nd.fn vs),
            slotUpd
              (unsetFuel ((((getWalk rec s nd.ups).2).upd i bumpC).nodes.length + 1)
                (((getWalk rec s nd.ups).2).upd i bumpC) i true)
              i (some (nd.fn vs)))
        | none => (none, (getWalk rec s nd.ups).2)

/-- `get()` as structural recursion on fuel (the upstream recursion
depth). -/
def getFuel : Nat → St → Nat → Option Val × St
| 0 => fun s _ => (none, s)
| f + 1 => fun s i => getCore (getFuel f) s i

/-- Top-level `get` with fuel sufficient for every acyclic graph. -/
def get (s : St) (i : Nat) : Option Val × St :=
  getFuel (s.nodes.length + 1) s i

/-- `root::set(v)`: `unset()` (clear own slot and cascade downstream), then
install a freshly allocated value.  Only sources expose `set` publicly. -/
def rootSet (s : St) (i : Nat) (v : Val) : St :=
  match s.node? i with
  | some nd =>
    if nd.kind = Kind.source then
      slotUpd (unsetFuel (s.nodes.length + 1) s i true) i (some v)
    else s
  | none => s

/-- A snapshot entry: (node identity, boxed value) where the box is the
type tag of the stored `shared_ptr<const Type>` plus its (possibly null)
payload. -/
abbrev Snapshot := List (Nat × Ty × Option Val)

/-- `Graph::dump`: walk the registry; emit `(id, dump())` for each live
entry, erase each dead entry in place.  Returns the pruned registry and
the snapshot. -/
def dumpGo (s : St) : List Nat → List Nat × Snapshot
| [] => ([], [])
| i :: rest =>
  match s.node? i with
  | some nd =>
    let p := dumpGo s rest
    (i :: p.1, (i, nd.ty, nd.slot) :: p.2)
  | none => dumpGo s rest

def dumpGraph (s : St) : St × Snapshot :=
  let p := dumpGo s s.registry
  ({ s with registry := p.1 }, p.2)

/-- Result of `Graph::load`: either normal return or a propagated
`std::bad_any_cast` from a type-mismatched `any_cast`.  In both cases the
state reached so far and the (in-place mutated) snapshot are kept, since
the C++ mutates the graph and the snapshot in place and the exception
merely unwinds. -/
inductive LoadResult
| ok (s : St) (snap : Snapshot)
| typeErr (s : St) (snap : Snapshot)

def LoadResult.isOk : LoadResult → Bool
| LoadResult.ok _ _ => true
| LoadResult.typeErr _ _ => false

def LoadResult.state : LoadResult → St
| LoadResult.ok s _ => s
| LoadResult.typeErr s _ => s

def LoadResult.snap : LoadResult → Snapshot
| LoadResult.ok _ p => p
| LoadResult.typeErr _ p => p

/-- `Graph::load`: walk the snapshot; for each entry whose weak identity is
live, `any_cast` the box into the node's slot (a tag mismatch throws,
aborting the walk with everything applied so far kept); dead entries are
erased from the snapshot in place. -/
def loadGo : St → Snapshot → Snapshot → LoadResult
| s, acc, [] => LoadResult.ok s acc
| s, acc, e :: rest =>
  match s.node? e.1 with
  | some nd =>
    if nd.ty = e.2.1 then
      loadGo (slotUpd s e.1 e.2.2) (acc ++ [e]) rest
    else
      LoadResult.typeErr s (acc ++ e :: rest)
  | none => loadGo s acc rest

def loadGraph (s : St) (snap : Snapshot) : LoadResult :=
  loadGo s [] snap

/-- The state-transforming effect of a successful `load` walk: overwrite
each live entry's slot, skip dead entries.  (Used to describe the state
`loadGo` reaches; coincides with it whenever the traversed entries
type-match.) -/
def applyEntries : St → Snapshot → St
| s, [] => s
| s, e :: rest =>
  applyEntries
    (match s.node? e.1 with
     | some _ => slotUpd s e.1 e.2.2
     | none => s)
    rest

/-- `Root(v)` / `Root()`: allocate a fresh source node (slot preloaded for
the one-argument overload, which calls `set` on a node with no downstream)
and register it in the active graph. -/
def mkRoot (s : St) (ty : Ty) (v? : Option Val) : St :=
  { nodes := s.nodes ++
      [{ kind := Kind.source, ty := ty, fn := fun _ => Val.vint 0, ups := [],
         slot := v?, count := 0, live := true, downstream := [] }],
    registry := s.registry ++ [s.nodes.length] }

/-- `args->downstream.push_back(result->shared_from_this())` for one
upstream handle. -/
def addEdge (s : St) (u : Nat) (i : Nat) : St :=
  s.upd u (fun n => { n with downstream := n.downstream ++ [i] })

/-- `Node(function, args...)`: wrap the function over the upstream handles,
allocate the memoized node with an empty cache, push a weak downstream
edge onto every upstream node, and register the node in the active
graph. -/
def mkNode (s : St) (ty : Ty) (fn : List Val → Val) (ups : List Nat) : St :=
  let i := s.nodes.length
  let s1 : St :=
    { s with nodes := s.nodes ++
        [{ kind := Kind.memo, ty := ty, fn := fn, ups := ups,
           slot := none, count := 0, live := true, downstream := [] }] }
  let s2 := ups.foldl (fun acc u => addEdge acc u i) s1
  { s2 with registry := s2.registry ++ [i] }

/-- `Path(function, args...)`: identical wiring to `Node`, but the
combinator holds no cache slot and is never registered. -/
def mkPath (s : St) (ty : Ty) (fn : List Val → Val) (ups : List Nat) : St :=
  let i := s.nodes.length
  let s1 : St :=
    { s with nodes := s.nodes ++
        [{ kind := Kind.comb, ty := ty, fn := fn, ups := ups,
           slot := none, count := 0, live := true, downstream := [] }] }
  ups.foldl (fun acc u => addEdge acc u i) s1

/-- Errors named by the specification.  The C++ never constructs either:
the constructors exist so the spec's error claims can be stated against
the code's actual outcomes. -/
inductive LazyError
| uninitRead
| typeMismatchOnLoad
deriving DecidableEq

/-- Possible outcomes of a read as the caller experiences it. -/
inductive Outcome
| ok (v : Val)
| err (e : LazyError)
| ub
deriving DecidableEq

/-- `root::get` exactly as written: `return *value;`.  Dereferencing the
null `shared_ptr` of a never-set source (and calling through a destroyed
object) is undefined behavior, modelled by the distinguished `ub`
outcome; it is not a caller-visible error value.  The function reads the
state and returns no new one: `root::get` performs no mutation. -/
def rootGet (s : St) (i : Nat) : Outcome :=
  match s.node? i with
  | some nd =>
    match nd.slot with
    | some v => Outcome.ok v
    | none => Outcome.ub
  | none => Outcome.ub

/-- The graph mutations available to a client between a `dump` and a
`load`: `set` on a source, `get` on any node, an invalidation cascade, and
destruction of a node's last owning reference. -/
inductive Op
| set (i : Nat) (v : Val)
| get (i : Nat)
| invalidate (i : Nat)
| destroy (i : Nat)

def applyOp (s : St) : Op → St
| Op.set i v => rootSet s i v
| Op.get i => (get s i).2
| Op.invalidate i =>
  match s.node? i with
  | some _ => unsetFuel (s.nodes.length + 1) s i true
  | none => s
| Op.destroy i => s.upd i (fun n => { n with live := false })

def applyOps (s : St) (ops : List Op) : St := ops.foldl applyOp s

/-- Acyclicity of upstream capture, as a boolean check: every upstream id
was created strictly before its consumer.  This is exactly the creation
discipline of `Node`/`Path` (handles must exist to be captured) and the
caller precondition the library documents. -/
def wfUpsB (s : St) : Bool :=
  (List.range s.nodes.length).all fun i =>
    match s.nodes.get? i with
    | some nd => nd.ups.all (fun j => decide (j < i))
    | none => true

abbrev Wf (s : St) : Prop := wfUpsB s = true

/-- The worked scenario of `main.cpp` / the spec: `A = Root(1)`,
`B = Root(2)`, `C = Path((a,b) ↦ a+b, A, B)`, `D = Node((c,a) ↦ c*a, C, A)`. -/
def fAdd : List Val → Val
| [Val.vint a, Val.vint b] => Val.vint (a + b)
| _ => Val.vint 0

def fMul : List Val → Val
| [Val.vint c, Val.vint a] => Val.vint (c * a)
| _ => Val.vint 0

def s0 : St := { nodes := [], registry := [] }

def sA : St := mkRoot s0 Ty.tint (some (Val.vint 1))

def sB : St := mkRoot sA Ty.tint (some (Val.vint 2))

def sC : St := mkPath sB Ty.tint fAdd [0, 1]

def sD : St := mkNode ((get sC 2).2) Ty.tint fMul [2, 0]

/-- State after `A.set(233)` in the worked scenario (the first `D.get()`
having been forced on `sD` before it). -/
def sSet233 : St := rootSet ((get sD 3).2) 0 (Val.vint 233)

/-- State after the `D.get()` that follows `A.set(233)`. -/
def sGet233 : St := (get sSet233 3).2

/-- State after `B.set(666)`. -/
def sSet666 : St := rootSet sGet233 1 (Val.vint 666)

/-- A registered source that has been destroyed (its last owning reference
dropped) while its registry entry survives. -/
def sDead : St := applyOp (mkRoot s0 Ty.tint (some (Val.vint 5))) (Op.destroy 0)

/-- Two sources of distinct payload types, for the load type-mismatch
scenario. -/
def sP : St := mkRoot (mkRoot s0 Ty.tint (some (Val.vint 1))) Ty.tbool (some (Val.vbool true))

/-- A snapshot whose first entry matches node 0 and whose second entry
carries the wrong payload type for node 1. -/
def snapBad : Snapshot := [(0, Ty.tint, some (Val.vint 99)), (1, Ty.tint, some (Val.vint 7))]

/-- A registered source that was never set. -/
def sEmptyRoot : St := mkRoot s0 Ty.tint none

/-- Structure-preservation between two states: same arena size, same
registry, and every node keeps its species, declared type, closure,
upstream captures and allocation status.  (Slots, invocation counts and
downstream lists may differ.) -/
structure Pres (s t : St) : Prop where
  len : t.nodes.length = s.nodes.length
  reg : t.registry = s.registry
  kind : ∀ j, t.kindAt j = s.kindAt j
  ty : ∀ j, t.tyAt j = s.tyAt j
  fn : ∀ j, t.fnAt j = s.fnAt j
  ups : ∀ j, t.upsAt j = s.upsAt j
  live : ∀ j, t.liveRawAt j = s.liveRawAt j

/-- `Pres` plus preservation of every invocation counter: the effect
envelope of an invalidation cascade. -/
def PresC (s t : St) : Prop := Pres s t ∧ ∀ j, t.countAt j = s.countAt j

/-- A snapshot entry is loadable into state `s`: if its identity is live,
the receiving node's declared type equals the box's tag. -/
def entryOk (s : St) (e : Nat × Ty × Option Val) : Bool :=
  match s.node? e.1 with
  | some nd => decide (nd.ty = e.2.1)
  | none => true

/-- Frame condition of `Node`/`Path` construction on the pre-existing
nodes: every field of every old node is untouched except the downstream
edge list, which gains one weak edge to the new node `i` per occurrence
of the old node among the captured upstream handles. -/
def frameOnly (s t : St) (i : Nat) (ups : List Nat) : Prop :=
  ∀ j, j < s.nodes.length →
    t.countAt j = s.countAt j ∧
    t.slotAt j = s.slotAt j ∧
    t.kindAt j = s.kindAt j ∧
    t.tyAt j = s.tyAt j ∧
    t.fnAt j = s.fnAt j ∧
    t.upsAt j = s.upsAt j ∧
    t.liveRawAt j = s.liveRawAt j ∧
    t.downAt j = (s.downAt j).map (fun d => d ++ List.replicate (ups.count j) i)

theorem updAt_length (l : List NodeSt) (i : Nat) (f : NodeSt → NodeSt) :
    (updAt l i f).length = l.length := by
  induction l generalizing i with
  | nil => rfl
  | cons x xs ih =>
    cases i with
    | zero => rfl
    | succ n => simp [updAt, ih]

theorem get?_updAt_self (l : List NodeSt) (i : Nat) (f : NodeSt → NodeSt) :
    (updAt l i f).get? i = (l.get? i).map f := by
  induction l generalizing i with
  | nil => rfl
  | cons x xs ih =>
    cases i with
    | zero => rfl
    | succ n => simpa [updAt] using ih n

theorem get?_updAt_ne (l : List NodeSt) (i j : Nat) (f : NodeSt → NodeSt)
    (h : j ≠ i) : (updAt l i f).get? j = l.get? j := by
  induction l generalizing i j with
  | nil => rfl
  | cons x xs ih =>
    cases i with
    | zero =>
      cases j with
      | zero => exact absurd rfl h
      | succ m => rfl
    | succ n =>
      cases j with
      | zero => rfl
      | succ m => simpa [updAt] using ih n m (fun hc => h (by rw [hc]))

theorem updAt_id (l : List NodeSt) (i : Nat) (f : NodeSt → NodeSt)
    (h : ∀ nd, l.get? i = some nd → f nd = nd) : updAt l i f = l := by
  induction l generalizing i with
  | nil => rfl
  | cons x xs ih =>
    cases i with
    | zero => simp [updAt, h x rfl]
    | succ n => simp [updAt]; exact ih n (fun nd hnd => h nd hnd)

theorem upd_registry (s : St) (i : Nat) (f : NodeSt → NodeSt) :
    (s.upd i f).registry = s.registry := rfl

theorem upd_length (s : St) (i : Nat) (f : NodeSt → NodeSt) :
    (s.upd i f).nodes.length = s.nodes.length := updAt_length s.nodes i f

theorem kindAt_upd (s : St) (i j : Nat) (f : NodeSt → NodeSt)
    (h : ∀ n, (f n).kind = n.kind) : (s.upd i f).kindAt j = s.kindAt j := by
  unfold St.kindAt St.upd
  by_cases hj : j = i
  · subst hj
    rw [show ({ s with nodes := updAt s.nodes j f } : St).nodes = updAt s.nodes j f from rfl,
      get?_updAt_self]
    cases s.nodes.get? j <;> simp [h]
  · rw [show ({ s with nodes := updAt s.nodes i f } : St).nodes = updAt s.nodes i f from rfl,
      get?_updAt_ne _ _ _ _ hj]

theorem tyAt_upd (s : St) (i j : Nat) (f : NodeSt → NodeSt)
    (h : ∀ n, (f n).ty = n.ty) : (s.upd i f).tyAt j = s.tyAt j := by
  unfold St.tyAt St.upd
  by_cases hj : j = i
  · subst hj
    rw [show ({ s with nodes := updAt s.nodes j f } : St).nodes = updAt s.nodes j f from rfl,
      get?_updAt_self]
    cases s.nodes.get? j <;> simp [h]
  · rw [show ({ s with nodes := updAt s.nodes i f } : St).nodes = updAt s.nodes i f from rfl,
      get?_updAt_ne _ _ _ _ hj]

theorem fnAt_upd (s : St) (i j : Nat) (f : NodeSt → NodeSt)
    (h : ∀ n, (f n).fn = n.fn) : (s.upd i f).fnAt j = s.fnAt j := by
  unfold St.fnAt St.upd
  by_cases hj : j = i
  · subst hj
    rw [show ({ s with nodes := updAt s.nodes j f } : St).nodes = updAt s.nodes j f from rfl,
      get?_updAt_self]
    cases s.nodes.get? j <;> simp [h]
  · rw [show ({ s with nodes := updAt s.nodes i f } : St).nodes = updAt s.nodes i f from rfl,
      get?_updAt_ne _ _ _ _ hj]

theorem upsAt_upd (s : St) (i j : Nat) (f : NodeSt → NodeSt)
    (h : ∀ n, (f n).ups = n.ups) : (s.upd i f).upsAt j = s.upsAt j := by
  unfold St.upsAt St.upd
  by_cases hj : j = i
  · subst hj
    rw [show ({ s with nodes := updAt s.nodes j f } : St).nodes = updAt s.nodes j f from rfl,
      get?_updAt_self]
    cases s.nodes.get? j <;> simp [h]
  · rw [show ({ s with nodes := updAt s.nodes i f } : St).nodes = updAt s.nodes i f from rfl,
      get?_updAt_ne _ _ _ _ hj]

theorem slotAt_upd (s : St) (i j : Nat) (f : NodeSt → NodeSt)
    (h : ∀ n, (f n).slot = n.slot) : (s.upd i f).slotAt j = s.slotAt j := by
  unfold St.slotAt St.upd
  by_cases hj : j = i
  · subst hj
    rw [show ({ s with nodes := updAt s.nodes j f } : St).nodes = updAt s.nodes j f from rfl,
      get?_updAt_self]
    cases s.nodes.get? j <;> simp [h]
  · rw [show ({ s with nodes := updAt s.nodes i f } : St).nodes = updAt s.nodes i f from rfl,
      get?_updAt_ne _ _ _ _ hj]

theorem countAt_upd (s : St) (i j : Nat) (f : NodeSt → NodeSt)
    (h : ∀ n, (f n).count = n.count) : (s.upd i f).countAt j = s.countAt j := by
  unfold St.countAt St.upd
  by_cases hj : j = i
  · subst hj
    rw [show ({ s with nodes := updAt s.nodes j f } : St).nodes = updAt s.nodes j f from rfl,
      get?_updAt_self]
    cases s.nodes.get? j <;> simp [h]
  · rw [show ({ s with nodes := updAt s.nodes i f } : St).nodes = updAt s.nodes i f from rfl,
      get?_updAt_ne _ _ _ _ hj]

theorem liveRawAt_upd (s : St) (i j : Nat) (f : NodeSt → NodeSt)
    (h : ∀ n, (f n).live = n.live) : (s.upd i f).liveRawAt j = s.liveRawAt j := by
  unfold St.liveRawAt St.upd
  by_cases hj : j = i
  · subst hj
    rw [show ({ s with nodes := updAt s.nodes j f } : St).nodes = updAt s.nodes j f from rfl,
      get?_updAt_self]
    cases s.nodes.get? j <;> simp [h]
  · rw [show ({ s with nodes := updAt s.nodes i f } : St).nodes = updAt s.nodes i f from rfl,
      get?_updAt_ne _ _ _ _ hj]

theorem downAt_upd_ne (s : St) (i j : Nat) (f : NodeSt → NodeSt)
    (h : j ≠ i) : (s.upd i f).downAt j = s.downAt j := by
  unfold St.downAt St.upd
  rw [show ({ s with nodes := updAt s.nodes i f } : St).nodes = updAt s.nodes i f from rfl,
    get?_updAt_ne _ _ _ _ h]

theorem countAt_bump_self (s : St) (i : Nat) :
    (s.upd i bumpC).countAt i = (s.countAt i).map (· + 1) := by
  unfold St.countAt St.upd
  rw [show ({ s with nodes := updAt s.nodes i bumpC } : St).nodes = updAt s.nodes i bumpC from rfl,
    get?_updAt_self]
  cases s.nodes.get? i <;> simp [bumpC]

theorem slotAt_slotUpd_self (s : St) (i : Nat) (v? : Option Val) :
    (slotUpd s i v?).slotAt i = (s.slotAt i).map (fun _ => v?) := by
  unfold slotUpd St.slotAt St.upd
  rw [show ({ s with nodes := updAt s.nodes i (setSlot v?) } : St).nodes
      = updAt s.nodes i (setSlot v?) from rfl, get?_updAt_self]
  cases s.nodes.get? i <;> simp [setSlot]

theorem node?_some_iff {s : St} {i : Nat} {nd : NodeSt} :
    s.node? i = some nd ↔ s.nodes.get? i = some nd ∧ nd.live = true := by
  unfold St.node?
  cases h : s.nodes.get? i with
  | none => simp
  | some m =>
    show (if m.live = true then some m else none) = some nd
      ↔ some m = some nd ∧ nd.live = true
    cases hl : m.live with
    | true =>
      rw [if_pos rfl]
      constructor
      · intro e
        refine ⟨e, ?_⟩
        injection e with e
        rw [← e]
        exact hl
      · exact fun he => he.1
    | false =>
      rw [if_neg (by simp [hl])]
      constructor
      · intro e
        exact absurd e (by simp)
      · intro he
        injection he.1 with e
        rw [← e] at he
        exact absurd he.2 (by simp [hl])

theorem liveAt_true_iff {s : St} {i : Nat} :
    s.liveAt i = true ↔ ∃ nd, s.node? i = some nd := by
  unfold St.liveAt
  cases h : s.node? i <;> simp

theorem node?_upd (s : St) (i j : Nat) (f : NodeSt → NodeSt)
    (h : ∀ n, (f n).live = n.live) :
    (s.upd i f).node? j = if j = i then (s.node? j).map f else s.node? j := by
  unfold St.node? St.upd
  by_cases hj : j = i
  · subst hj
    rw [show ({ s with nodes := updAt s.nodes j f } : St).nodes = updAt s.nodes j f from rfl,
      get?_updAt_self]
    simp only [if_true, eq_self_iff_true]
    cases s.nodes.get? j with
    | none => rfl
    | some m =>
      show (if (f m).live = true then some (f m) else none)
        = Option.map f (if m.live = true then some m else none)
      rw [h m]
      cases hl : m.live <;> simp
  · rw [show ({ s with nodes := updAt s.nodes i f } : St).nodes = updAt s.nodes i f from rfl,
      get?_updAt_ne _ _ _ _ hj]
    simp [hj]

theorem liveAt_upd (s : St) (i j : Nat) (f : NodeSt → NodeSt)
    (h : ∀ n, (f n).live = n.live) : (s.upd i f).liveAt j = s.liveAt j := by
  unfold St.liveAt
  rw [node?_upd s i j f h]
  by_cases hj : j = i
  · subst hj; simp
  · simp [hj]

theorem getFuel_succ (f : Nat) (s : St) (i : Nat) :
    getFuel (f + 1) s i = getCore (getFuel f) s i := rfl

theorem getWalk_nil (rec : St → Nat → Option Val × St) (s : St) :
    getWalk rec s [] = (some [], s) := rfl

theorem getWalk_cons (rec : St → Nat → Option Val × St) (s : St) (u : Nat) (rest : List Nat) :
    getWalk rec s (u :: rest) =
      match (rec s u).1 with
      | some v =>
        match (getWalk rec (rec s u).2 rest).1 with
        | some vs => (some (v :: vs), (getWalk rec (rec s u).2 rest).2)
        | none => (none, (getWalk rec (rec s u).2 rest).2)
      | none => (none, (rec s u).2) := rfl

theorem getCore_of_none (rec : St → Nat → Option Val × St) (s : St) (i : Nat)
    (h : s.node? i = none) : getCore rec s i = (none, s) := by
  unfold getCore
  rw [h]

theorem getCore_of_source (rec : St → Nat → Option Val × St) (s : St) (i : Nat)
    (nd : NodeSt) (h : s.node? i = some nd) (hk : nd.kind = Kind.source) :
    getCore rec s i = (nd.slot, s) := by
  obtain ⟨k, t, fn, ups, slot, cnt, lv, dn⟩ := nd
  cases hk
  unfold getCore
  rw [h]

theorem getCore_of_comb (rec : St → Nat → Option Val × St) (s : St) (i : Nat)
    (nd : NodeSt) (h : s.node? i = some nd) (hk : nd.kind = Kind.comb) :
    getCore rec s i =
      match (getWalk rec s nd.ups).1 with
      | some vs => (some (nd.fn vs), ((getWalk rec s nd.ups).2).upd i bumpC)
      | none => (none, (getWalk rec s nd.ups).2) := by
  obtain ⟨k, t, fn, ups, slot, cnt, lv, dn⟩ := nd
  cases hk
  unfold getCore
  rw [h]

theorem getCore_of_memo_hit (rec : St → Nat → Option Val × St) (s : St) (i : Nat)
    (nd : NodeSt) (v : Val) (h : s.node? i = some nd) (hk : nd.kind = Kind.memo)
    (hs : nd.slot = some v) : getCore rec s i = (some v, s) := by
  obtain ⟨k, t, fn, ups, slot, cnt, lv, dn⟩ := nd
  cases hk
  cases hs
  unfold getCore
  rw [h]

theorem getCore_of_memo_miss (rec : St → Nat → Option Val × St) (s : St) (i : Nat)
    (nd : NodeSt) (h : s.node? i = some nd) (hk : nd.kind = Kind.memo)
    (hs : nd.slot = none) :
    getCore rec s i =
      match (getWalk rec s nd.ups).1 with
      | some vs =>
        (some (nd.fn vs),
          slotUpd
            (unsetFuel ((((getWalk rec s nd.ups).2).upd i bumpC).nodes.length + 1)
              (((getWalk rec s nd.ups).2).upd i bumpC) i true)
            i (some (nd.fn vs)))
      | none => (none, (getWalk rec s nd.ups).2) := by
  obtain ⟨k, t, fn, ups, slot, cnt, lv, dn⟩ := nd
  cases hk
  cases hs
  unfold getCore
  rw [h]

theorem unsetFuel_succ (f : Nat) (s : St) (i : Nat) (b : Bool) :
    unsetFuel (f + 1) s i b = unsetCore (unsetFuel f) (if b then s.upd i release else s) i := rfl

theorem unsetWalk_nil (rec : St → Nat → Bool → St) (s : St) :
    unsetWalk rec s [] = (s, []) := rfl

theorem unsetWalk_cons_live (rec : St → Nat → Bool → St) (s : St) (d : Nat) (rest : List Nat)
    (h : s.liveAt d = true) :
    unsetWalk rec s (d :: rest) =
      ((unsetWalk rec (rec s d true) rest).1, d :: (unsetWalk rec (rec s d true) rest).2) := by
  show (if s.liveAt d then
      let s' := rec s d true
      let p := unsetWalk rec s' rest
      ((p.1, d :: p.2) : St × List Nat)
    else unsetWalk rec s rest) = _
  rw [if_pos h]

theorem unsetWalk_cons_dead (rec : St → Nat → Bool → St) (s : St) (d : Nat) (rest : List Nat)
    (h : s.liveAt d = false) :
    unsetWalk rec s (d :: rest) = unsetWalk rec s rest := by
  show (if s.liveAt d then
      let s' := rec s d true
      let p := unsetWalk rec s' rest
      ((p.1, d :: p.2) : St × List Nat)
    else unsetWalk rec s rest) = _
  rw [if_neg (by simp [h])]

theorem unsetCore_of_none (rec : St → Nat → Bool → St) (s1 : St) (i : Nat)
    (h : s1.nodes.get? i = none) : unsetCore rec s1 i = s1 := by
  unfold unsetCore
  rw [h]

theorem unsetCore_of_some (rec : St → Nat → Bool → St) (s1 : St) (i : Nat) (nd : NodeSt)
    (h : s1.nodes.get? i = some nd) :
    unsetCore rec s1 i =
      (unsetWalk rec s1 nd.downstream).1.upd i
        (fun n => { n with downstream := (unsetWalk rec s1 nd.downstream).2 }) := by
  unfold unsetCore
  rw [h]

theorem countAt_upd_ne (s : St) (i j : Nat) (f : NodeSt → NodeSt)
    (h : j ≠ i) : (s.upd i f).countAt j = s.countAt j := by
  unfold St.countAt St.upd
  rw [show ({ s with nodes := updAt s.nodes i f } : St).nodes = updAt s.nodes i f from rfl,
    get?_updAt_ne _ _ _ _ h]

theorem release_fields (n : NodeSt) :
    (release n).kind = n.kind ∧ (release n).ty = n.ty ∧ (release n).fn = n.fn ∧
    (release n).ups = n.ups ∧ (release n).live = n.live ∧ (release n).count = n.count ∧
    (release n).downstream = n.downstream := by
  unfold release
  cases h : n.kind <;> simp [h]

theorem pres_refl (s : St) : Pres s s :=
  ⟨rfl, rfl, fun _ => rfl, fun _ => rfl, fun _ => rfl, fun _ => rfl, fun _ => rfl⟩

theorem pres_trans {a b c : St} (h1 : Pres a b) (h2 : Pres b c) : Pres a c :=
  ⟨h2.len.trans h1.len, h2.reg.trans h1.reg, fun j => (h2.kind j).trans (h1.kind j),
   fun j => (h2.ty j).trans (h1.ty j), fun j => (h2.fn j).trans (h1.fn j),
   fun j => (h2.ups j).trans (h1.ups j), fun j => (h2.live j).trans (h1.live j)⟩

theorem pres_upd (s : St) (i : Nat) (f : NodeSt → NodeSt)
    (hk : ∀ n, (f n).kind = n.kind) (hty : ∀ n, (f n).ty = n.ty)
    (hfn : ∀ n, (f n).fn = n.fn) (hups : ∀ n, (f n).ups = n.ups)
    (hlive : ∀ n, (f n).live = n.live) : Pres s (s.upd i f) :=
  ⟨upd_length s i f, rfl, fun j => kindAt_upd s i j f hk, fun j => tyAt_upd s i j f hty,
   fun j => fnAt_upd s i j f hfn, fun j => upsAt_upd s i j f hups,
   fun j => liveRawAt_upd s i j f hlive⟩

theorem presC_refl (s : St) : PresC s s := ⟨pres_refl s, fun _ => rfl⟩

theorem presC_trans {a b c : St} (h1 : PresC a b) (h2 : PresC b c) : PresC a c :=
  ⟨pres_trans h1.1 h2.1, fun j => (h2.2 j).trans (h1.2 j)⟩

theorem presC_upd (s : St) (i : Nat) (f : NodeSt → NodeSt)
    (hk : ∀ n, (f n).kind = n.kind) (hty : ∀ n, (f n).ty = n.ty)
    (hfn : ∀ n, (f n).fn = n.fn) (hups : ∀ n, (f n).ups = n.ups)
    (hlive : ∀ n, (f n).live = n.live) (hcount : ∀ n, (f n).count = n.count) :
    PresC s (s.upd i f) :=
  ⟨pres_upd s i f hk hty hfn hups hlive, fun j => countAt_upd s i j f hcount⟩

theorem unsetWalk_presC (rec : St → Nat → Bool → St)
    (hrec : ∀ s i b, PresC s (rec s i b)) (l : List Nat) :
    ∀ s, PresC s (unsetWalk rec s l).1 := by
  induction l with
  | nil => intro s; exact presC_refl s
  | cons d rest ih =>
    intro s
    show PresC s (if s.liveAt d then
        let s' := rec s d true
        let p := unsetWalk rec s' rest
        ((p.1, d :: p.2) : St × List Nat)
      else unsetWalk rec s rest).1
    cases hd : s.liveAt d
    · rw [if_neg Bool.false_ne_true]
      exact ih s
    · rw [if_pos rfl]
      exact presC_trans (hrec s d true) (ih (rec s d true))

theorem unsetCore_presC (rec : St → Nat → Bool → St)
    (hrec : ∀ s i b, PresC s (rec s i b)) (s1 : St) (i : Nat) :
    PresC s1 (unsetCore rec s1 i) := by
  unfold unsetCore
  cases hg : s1.nodes.get? i with
  | none => exact presC_refl s1
  | some nd =>
    exact presC_trans (unsetWalk_presC rec hrec nd.downstream s1)
      (presC_upd _ i _ (fun n => rfl) (fun n => rfl) (fun n => rfl) (fun n => rfl)
        (fun n => rfl) (fun n => rfl))

theorem unsetFuel_presC : ∀ (f : Nat) (s : St) (i : Nat) (b : Bool),
    PresC s (unsetFuel f s i b) := by
  intro f
  induction f with
  | zero => intro s i b; exact presC_refl s
  | succ f ih =>
    intro s i b
    show PresC s (unsetCore (unsetFuel f) (if b then s.upd i release else s) i)
    refine presC_trans ?_ (unsetCore_presC (unsetFuel f) ih _ i)
    cases b
    · exact presC_refl s
    · exact presC_upd s i release (fun n => (release_fields n).1)
        (fun n => (release_fields n).2.1) (fun n => (release_fields n).2.2.1)
        (fun n => (release_fields n).2.2.2.1) (fun n => (release_fields n).2.2.2.2.1)
        (fun n => (release_fields n).2.2.2.2.2.1)

theorem getWalk_pres (rec : St → Nat → Option Val × St)
    (hrec : ∀ s u, Pres s (rec s u).2) (l : List Nat) :
    ∀ s, Pres s (getWalk rec s l).2 := by
  induction l with
  | nil => intro s; exact pres_refl s
  | cons u rest ih =>
    intro s
    show Pres s (match (rec s u).1 with
      | some v =>
        match (getWalk rec (rec s u).2 rest).1 with
        | some vs => ((some (v :: vs), (getWalk rec (rec s u).2 rest).2) : Option (List Val) × St)
        | none => (none, (getWalk rec (rec s u).2 rest).2)
      | none => (none, (rec s u).2)).2
    have h1 := hrec s u
    have h2 := ih (rec s u).2
    cases (rec s u).1 with
    | none => exact h1
    | some v =>
      cases (getWalk rec (rec s u).2 rest).1 with
      | none => exact pres_trans h1 h2
      | some vs => exact pres_trans h1 h2

theorem getCore_pres (rec : St → Nat → Option Val × St)
    (hrec : ∀ s u, Pres s (rec s u).2) (s : St) (i : Nat) :
    Pres s (getCore rec s i).2 := by
  cases hn : s.node? i with
  | none => rw [getCore_of_none rec s i hn]; exact pres_refl s
  | some nd =>
    have h1 := getWalk_pres rec hrec nd.ups s
    cases hk : nd.kind with
    | source => rw [getCore_of_source rec s i nd hn hk]; exact pres_refl s
    | comb =>
      rw [getCore_of_comb rec s i nd hn hk]
      cases (getWalk rec s nd.ups).1 with
      | none => exact h1
      | some vs =>
        exact pres_trans h1 (pres_upd _ i bumpC (fun n => rfl) (fun n => rfl)
          (fun n => rfl) (fun n => rfl) (fun n => rfl))
    | memo =>
      cases hs : nd.slot with
      | some v => rw [getCore_of_memo_hit rec s i nd v hn hk hs]; exact pres_refl s
      | none =>
        rw [getCore_of_memo_miss rec s i nd hn hk hs]
        cases (getWalk rec s nd.ups).1 with
        | none => exact h1
        | some vs =>
          exact pres_trans h1 (pres_trans (pres_upd _ i bumpC (fun n => rfl)
            (fun n => rfl) (fun n => rfl) (fun n => rfl) (fun n => rfl))
            (pres_trans
              (unsetFuel_presC ((((getWalk rec s nd.ups).2).upd i bumpC).nodes.length + 1)
                (((getWalk rec s nd.ups).2).upd i bumpC) i true).1
              (pres_upd _ i (setSlot (some (nd.fn vs))) (fun n => rfl) (fun n => rfl)
                (fun n => rfl) (fun n => rfl) (fun n => rfl))))

theorem getFuel_pres : ∀ (f : Nat) (s : St) (i : Nat), Pres s (getFuel f s i).2 := by
  intro f
  induction f with
  | zero => intro s i; exact pres_refl s
  | succ f ih =>
    intro s i
    exact getCore_pres (getFuel f) (fun s u => ih s u) s i

theorem wf_spec {s : St} (h : Wf s) :
    ∀ i nd, s.nodes.get? i = some nd → ∀ j ∈ nd.ups, j < i := by
  intro i nd hget j hj
  unfold Wf wfUpsB at h
  rw [List.all_eq_true] at h
  have hi : i ∈ List.range s.nodes.length := by
    rw [List.mem_range]
    obtain ⟨hlt, _⟩ := List.get?_eq_some.mp hget
    exact hlt
  have hb := h i hi
  rw [hget] at hb
  have hb' : nd.ups.all (fun j => decide (j < i)) = true := hb
  rw [List.all_eq_true] at hb'
  simpa using hb' j hj

theorem wf_pres {s t : St} (hwf : Wf s) (hp : Pres s t) : Wf t := by
  unfold Wf wfUpsB at hwf ⊢
  rw [List.all_eq_true] at hwf ⊢
  intro i hi
  have hi' : i ∈ List.range s.nodes.length := by
    rw [List.mem_range] at hi ⊢
    rw [← hp.len]
    exact hi
  have hb := hwf i hi'
  have hu := hp.ups i
  unfold St.upsAt at hu
  cases hgt : t.nodes.get? i with
  | none => exact rfl
  | some ndt =>
    cases hgs : s.nodes.get? i with
    | none =>
      rw [hgt, hgs] at hu
      exact absurd hu (by simp)
    | some nds =>
      rw [hgt, hgs] at hu
      have hu' : some ndt.ups = some nds.ups := hu
      injection hu' with hu
      rw [hgs] at hb
      have hb' : nds.ups.all (fun j => decide (j < i)) = true := hb
      show ndt.ups.all (fun j => decide (j < i)) = true
      rw [hu]
      exact hb'

theorem get?_isSome_of_lt {l : List NodeSt} {i : Nat} (h : i < l.length) :
    ∃ nd, l.get? i = some nd := by
  cases hg : l.get? i with
  | none =>
    rw [List.get?_eq_none] at hg
    omega
  | some nd => exact ⟨nd, rfl⟩

theorem slotAt_slotUpd_self_of_lt (s : St) (i : Nat) (v? : Option Val)
    (h : i < s.nodes.length) : (slotUpd s i v?).slotAt i = some v? := by
  rw [slotAt_slotUpd_self]
  obtain ⟨nd, hnd⟩ := get?_isSome_of_lt h
  unfold St.slotAt
  rw [hnd]
  rfl

theorem slotUpd_length (s : St) (i : Nat) (v? : Option Val) :
    (slotUpd s i v?).nodes.length = s.nodes.length := upd_length s i (setSlot v?)

theorem countAt_slotUpd (s : St) (i j : Nat) (v? : Option Val) :
    (slotUpd s i v?).countAt j = s.countAt j := countAt_upd s i j (setSlot v?) (fun _ => rfl)

theorem getWalk_count (rec : St → Nat → Option Val × St)
    (hrecP : ∀ s u, Pres s (rec s u).2)
    (hrecC : ∀ s u j, Wf s → u < j → ((rec s u).2).countAt j = s.countAt j)
    (l : List Nat) :
    ∀ s j, Wf s → (∀ u ∈ l, u < j) → ((getWalk rec s l).2).countAt j = s.countAt j := by
  induction l with
  | nil => intro s j _ _; rfl
  | cons u rest ih =>
    intro s j hwf hul
    rw [getWalk_cons]
    have hu : u < j := hul u (by simp)
    have hrest : ∀ x ∈ rest, x < j := fun x hx => hul x (by simp [hx])
    have h1 := hrecC s u j hwf hu
    have hwf1 : Wf (rec s u).2 := wf_pres hwf (hrecP s u)
    have h2 := ih (rec s u).2 j hwf1 hrest
    cases (rec s u).1 with
    | none => exact h1
    | some v =>
      cases (getWalk rec (rec s u).2 rest).1 with
      | none => exact h2.trans h1
      | some vs => exact h2.trans h1

theorem getCore_count (rec : St → Nat → Option Val × St)
    (hrecP : ∀ s u, Pres s (rec s u).2)
    (hrecC : ∀ s u j, Wf s → u < j → ((rec s u).2).countAt j = s.countAt j)
    (s : St) (i j : Nat) (hwf : Wf s) (hij : i < j) :
    ((getCore rec s i).2).countAt j = s.countAt j := by
  cases hn : s.node? i with
  | none => rw [getCore_of_none rec s i hn]
  | some nd =>
    have hget : s.nodes.get? i = some nd := (node?_some_iff.mp hn).1
    have hups : ∀ u ∈ nd.ups, u < i := wf_spec hwf i nd hget
    have hupsj : ∀ u ∈ nd.ups, u < j := fun u hu => lt_trans (hups u hu) hij
    have hW := getWalk_count rec hrecP hrecC nd.ups s j hwf hupsj
    have hne : j ≠ i := (Nat.ne_of_lt hij).symm
    cases hk : nd.kind with
    | source => rw [getCore_of_source rec s i nd hn hk]
    | comb =>
      rw [getCore_of_comb rec s i nd hn hk]
      cases (getWalk rec s nd.ups).1 with
      | none => exact hW
      | some vs => exact (countAt_upd_ne _ i j bumpC hne).trans hW
    | memo =>
      cases hs : nd.slot with
      | some v => rw [getCore_of_memo_hit rec s i nd v hn hk hs]
      | none =>
        rw [getCore_of_memo_miss rec s i nd hn hk hs]
        cases (getWalk rec s nd.ups).1 with
        | none => exact hW
        | some vs =>
          refine Eq.trans (countAt_upd _ i j (setSlot (some (nd.fn vs))) (fun n => rfl)) ?_
          refine Eq.trans ((unsetFuel_presC ((((getWalk rec s nd.ups).2).upd i bumpC).nodes.length + 1)
            (((getWalk rec s nd.ups).2).upd i bumpC) i true).2 j) ?_
          exact (countAt_upd_ne _ i j bumpC hne).trans hW

theorem getFuel_count : ∀ (f : Nat) (s : St) (i j : Nat), Wf s → i < j →
    ((getFuel f s i).2).countAt j = s.countAt j := by
  intro f
  induction f with
  | zero => intro s i j _ _; rfl
  | succ f ih =>
    intro s i j hwf hij
    exact getCore_count (getFuel f) (getFuel_pres f) (fun s u j hw hu => ih s u j hw hu)
      s i j hwf hij

/-- C1: for a memoized node of an acyclic graph whose cache slot is empty
(the state of a freshly constructed or freshly invalidated node), a first
successful `get` followed by a second `get`, with nothing in between,
yields the same value both times, performs no state change at the second
call, and invokes the node's recomputation closure exactly once in total
(the ghost counter rises by exactly one across the pair of calls). -/
theorem memoized_get_twice (f : Nat) (s s1 : St) (i : Nat) (v : Val)
    (hwf : Wf s) (hk : s.kindAt i = some Kind.memo) (hc : s.slotAt i = some none)
    (h1 : getFuel f s i = (some v, s1)) :
    getFuel f s1 i = (some v, s1) ∧ s1.countAt i = (s.countAt i).map (· + 1) := by
  cases f with
  | zero =>
    have e : ((none : Option Val), s) = (some v, s1) := h1
    exact absurd (congrArg Prod.fst e) (by simp)
  | succ f =>
    rw [getFuel_succ] at h1
    cases hn : s.node? i with
    | none =>
      rw [getCore_of_none (getFuel f) s i hn] at h1
      exact absurd (congrArg Prod.fst h1) (by simp)
    | some nd =>
      have hget : s.nodes.get? i = some nd := (node?_some_iff.mp hn).1
      have hlive : nd.live = true := (node?_some_iff.mp hn).2
      have hkind : nd.kind = Kind.memo := by
        unfold St.kindAt at hk
        rw [hget] at hk
        have hk' : some nd.kind = some Kind.memo := hk
        injection hk'
      have hslot : nd.slot = none := by
        unfold St.slotAt at hc
        rw [hget] at hc
        have hc' : some nd.slot = some (none : Option Val) := hc
        injection hc'
      rw [getCore_of_memo_miss (getFuel f) s i nd hn hkind hslot] at h1
      cases hw : (getWalk (getFuel f) s nd.ups).1 with
      | none =>
        rw [hw] at h1
        have e : ((none : Option Val), (getWalk (getFuel f) s nd.ups).2) = (some v, s1) := h1
        exact absurd (congrArg Prod.fst e) (by simp)
      | some vs =>
        rw [hw] at h1
        have e : (some (nd.fn vs),
            slotUpd
              (unsetFuel ((((getWalk (getFuel f) s nd.ups).2).upd i bumpC).nodes.length + 1)
                (((getWalk (getFuel f) s nd.ups).2).upd i bumpC) i true)
              i (some (nd.fn vs))) = (some v, s1) := h1
        have e1 : nd.fn vs = v := by
          have e1' : some (nd.fn vs) = some v := congrArg Prod.fst e
          injection e1'
        have e2 : slotUpd
            (unsetFuel ((((getWalk (getFuel f) s nd.ups).2).upd i bumpC).nodes.length + 1)
              (((getWalk (getFuel f) s nd.ups).2).upd i bumpC) i true)
            i (some (nd.fn vs)) = s1 := congrArg Prod.snd e
        subst e1
        subst e2
        have hpW : Pres s (getWalk (getFuel f) s nd.ups).2 :=
          getWalk_pres (getFuel f) (getFuel_pres f) nd.ups s
        have hiLt : i < s.nodes.length := by
          obtain ⟨hlt, _⟩ := List.get?_eq_some.mp hget
          exact hlt
        have hWlen : ((getWalk (getFuel f) s nd.ups).2).nodes.length = s.nodes.length := hpW.len
        have hBlen : ((((getWalk (getFuel f) s nd.ups).2).upd i bumpC)).nodes.length
            = s.nodes.length := (upd_length _ i bumpC).trans hWlen
        have hXP := unsetFuel_presC
          ((((getWalk (getFuel f) s nd.ups).2).upd i bumpC).nodes.length + 1)
          (((getWalk (getFuel f) s nd.ups).2).upd i bumpC) i true
        have hXlen : (unsetFuel
            ((((getWalk (getFuel f) s nd.ups).2).upd i bumpC).nodes.length + 1)
            (((getWalk (getFuel f) s nd.ups).2).upd i bumpC) i true).nodes.length
            = s.nodes.length := hXP.1.len.trans hBlen
        have hslot1 : (slotUpd
            (unsetFuel ((((getWalk (getFuel f) s nd.ups).2).upd i bumpC).nodes.length + 1)
              (((getWalk (getFuel f) s nd.ups).2).upd i bumpC) i true)
            i (some (nd.fn vs))).slotAt i = some (some (nd.fn vs)) :=
          slotAt_slotUpd_self_of_lt _ i _ (by rw [hXlen]; exact hiLt)
        have hp : Pres s (slotUpd
            (unsetFuel ((((getWalk (getFuel f) s nd.ups).2).upd i bumpC).nodes.length + 1)
              (((getWalk (getFuel f) s nd.ups).2).upd i bumpC) i true)
            i (some (nd.fn vs))) :=
          pres_trans hpW (pres_trans
            (pres_upd _ i bumpC (fun n => rfl) (fun n => rfl) (fun n => rfl) (fun n => rfl)
              (fun n => rfl))
            (pres_trans hXP.1
              (pres_upd _ i (setSlot (some (nd.fn vs))) (fun n => rfl) (fun n => rfl)
                (fun n => rfl) (fun n => rfl) (fun n => rfl))))
        obtain ⟨nd1, hget1⟩ := get?_isSome_of_lt (show i < (slotUpd
            (unsetFuel ((((getWalk (getFuel f) s nd.ups).2).upd i bumpC).nodes.length + 1)
              (((getWalk (getFuel f) s nd.ups).2).upd i bumpC) i true)
            i (some (nd.fn vs))).nodes.length from by
          rw [(slotUpd_length _ i (some (nd.fn vs))).trans hXlen]
          exact hiLt)
        have hk1 : nd1.kind = Kind.memo := by
          have hh := hp.kind i
          unfold St.kindAt at hh
          rw [hget1, hget] at hh
          have h' : some nd1.kind = some nd.kind := hh
          injection h' with h'
          rw [h', hkind]
        have hl1 : nd1.live = true := by
          have hh := hp.live i
          unfold St.liveRawAt at hh
          rw [hget1, hget] at hh
          have h' : some nd1.live = some nd.live := hh
          injection h' with h'
          rw [h', hlive]
        have hs1slot : nd1.slot = some (nd.fn vs) := by
          have hh := hslot1
          unfold St.slotAt at hh
          rw [hget1] at hh
          have h' : some nd1.slot = some (some (nd.fn vs)) := hh
          injection h'
        have hn1 : (slotUpd
            (unsetFuel ((((getWalk (getFuel f) s nd.ups).2).upd i bumpC).nodes.length + 1)
              (((getWalk (getFuel f) s nd.ups).2).upd i bumpC) i true)
            i (some (nd.fn vs))).node? i = some nd1 := node?_some_iff.mpr ⟨hget1, hl1⟩
        constructor
        · rw [getFuel_succ, getCore_of_memo_hit (getFuel f) _ i nd1 (nd.fn vs) hn1 hk1 hs1slot]
        · have c1 := countAt_slotUpd
            (unsetFuel ((((getWalk (getFuel f) s nd.ups).2).upd i bumpC).nodes.length + 1)
              (((getWalk (getFuel f) s nd.ups).2).upd i bumpC) i true)
            i i (some (nd.fn vs))
          have c2 := hXP.2 i
          have c3 := countAt_bump_self ((getWalk (getFuel f) s nd.ups).2) i
          have c4 := getWalk_count (getFuel f) (getFuel_pres f)
            (fun s u j hw hu => getFuel_count f s u j hw hu) nd.ups s i hwf
            (wf_spec hwf i nd hget)
          show (slotUpd
            (unsetFuel ((((getWalk (getFuel f) s nd.ups).2).upd i bumpC).nodes.length + 1)
              (((getWalk (getFuel f) s nd.ups).2).upd i bumpC) i true)
            i (some (nd.fn vs))).countAt i = (s.countAt i).map (· + 1)
          rw [c1, c2, c3, c4]

theorem slotAt_upd_ne (s : St) (i j : Nat) (f : NodeSt → NodeSt)
    (h : j ≠ i) : (s.upd i f).slotAt j = s.slotAt j := by
  unfold St.slotAt St.upd
  rw [show ({ s with nodes := updAt s.nodes i f } : St).nodes = updAt s.nodes i f from rfl,
    get?_updAt_ne _ _ _ _ h]

theorem node?_slotUpd (s : St) (k j : Nat) (w : Option Val) :
    (slotUpd s k w).node? j = if j = k then (s.node? j).map (setSlot w) else s.node? j :=
  node?_upd s k j (setSlot w) (fun _ => rfl)

theorem liveAt_slotUpd (s : St) (k j : Nat) (w : Option Val) :
    (slotUpd s k w).liveAt j = s.liveAt j :=
  liveAt_upd s k j (setSlot w) (fun _ => rfl)

theorem tyAt_slotUpd (s : St) (k j : Nat) (w : Option Val) :
    (slotUpd s k w).tyAt j = s.tyAt j :=
  tyAt_upd s k j (setSlot w) (fun _ => rfl)

theorem entryOk_slotUpd (s : St) (k : Nat) (w : Option Val) (e : Nat × Ty × Option Val)
    (h : entryOk s e = true) : entryOk (slotUpd s k w) e = true := by
  unfold entryOk at h ⊢
  rw [node?_slotUpd]
  by_cases hk : e.1 = k
  · rw [if_pos hk]
    cases hcase : s.node? e.1 with
    | none => rfl
    | some nd =>
      rw [hcase] at h
      exact h
  · rw [if_neg hk]
    exact h

theorem loadGo_cons_match (s : St) (acc : Snapshot) (e : Nat × Ty × Option Val)
    (rest : Snapshot) (nd : NodeSt) (h : s.node? e.1 = some nd) (hty : nd.ty = e.2.1) :
    loadGo s acc (e :: rest) = loadGo (slotUpd s e.1 e.2.2) (acc ++ [e]) rest := by
  show (match s.node? e.1 with
    | some nd =>
      if nd.ty = e.2.1 then loadGo (slotUpd s e.1 e.2.2) (acc ++ [e]) rest
      else LoadResult.typeErr s (acc ++ e :: rest)
    | none => loadGo s acc rest) = _
  rw [h]
  show (if nd.ty = e.2.1 then loadGo (slotUpd s e.1 e.2.2) (acc ++ [e]) rest
    else LoadResult.typeErr s (acc ++ e :: rest)) = _
  rw [if_pos hty]

theorem loadGo_cons_mismatch (s : St) (acc : Snapshot) (e : Nat × Ty × Option Val)
    (rest : Snapshot) (nd : NodeSt) (h : s.node? e.1 = some nd) (hty : nd.ty ≠ e.2.1) :
    loadGo s acc (e :: rest) = LoadResult.typeErr s (acc ++ e :: rest) := by
  show (match s.node? e.1 with
    | some nd =>
      if nd.ty = e.2.1 then loadGo (slotUpd s e.1 e.2.2) (acc ++ [e]) rest
      else LoadResult.typeErr s (acc ++ e :: rest)
    | none => loadGo s acc rest) = _
  rw [h]
  show (if nd.ty = e.2.1 then loadGo (slotUpd s e.1 e.2.2) (acc ++ [e]) rest
    else LoadResult.typeErr s (acc ++ e :: rest)) = _
  rw [if_neg hty]

theorem loadGo_cons_dead (s : St) (acc : Snapshot) (e : Nat × Ty × Option Val)
    (rest : Snapshot) (h : s.node? e.1 = none) :
    loadGo s acc (e :: rest) = loadGo s acc rest := by
  show (match s.node? e.1 with
    | some nd =>
      if nd.ty = e.2.1 then loadGo (slotUpd s e.1 e.2.2) (acc ++ [e]) rest
      else LoadResult.typeErr s (acc ++ e :: rest)
    | none => loadGo s acc rest) = _
  rw [h]

theorem applyEntries_cons_live (s : St) (e : Nat × Ty × Option Val) (rest : Snapshot)
    (nd : NodeSt) (h : s.node? e.1 = some nd) :
    applyEntries s (e :: rest) = applyEntries (slotUpd s e.1 e.2.2) rest := by
  show applyEntries (match s.node? e.1 with
    | some _ => slotUpd s e.1 e.2.2
    | none => s) rest = _
  rw [h]

theorem applyEntries_cons_dead (s : St) (e : Nat × Ty × Option Val) (rest : Snapshot)
    (h : s.node? e.1 = none) :
    applyEntries s (e :: rest) = applyEntries s rest := by
  show applyEntries (match s.node? e.1 with
    | some _ => slotUpd s e.1 e.2.2
    | none => s) rest = _
  rw [h]

theorem liveAt_of_node?_some {s : St} {i : Nat} {nd : NodeSt} (h : s.node? i = some nd) :
    s.liveAt i = true := by
  unfold St.liveAt
  rw [h]
  rfl

theorem liveAt_of_node?_none {s : St} {i : Nat} (h : s.node? i = none) :
    s.liveAt i = false := by
  unfold St.liveAt
  rw [h]
  rfl

theorem loadGo_ok (l : Snapshot) : ∀ (s : St) (acc : Snapshot),
    (∀ e ∈ l, entryOk s e = true) →
    loadGo s acc l
      = LoadResult.ok (applyEntries s l) (acc ++ l.filter (fun e => s.liveAt e.1)) := by
  induction l with
  | nil =>
    intro s acc _
    show LoadResult.ok s acc = LoadResult.ok s (acc ++ [])
    rw [List.append_nil]
  | cons e rest ih =>
    intro s acc hok
    have he := hok e (by simp)
    have hrest : ∀ x ∈ rest, entryOk s x = true := fun x hx => hok x (by simp [hx])
    cases hn : s.node? e.1 with
    | none =>
      have hl : s.liveAt e.1 = false := liveAt_of_node?_none hn
      rw [loadGo_cons_dead s acc e rest hn, ih s acc hrest,
        applyEntries_cons_dead s e rest hn]
      simp [List.filter_cons, hl]
    | some nd =>
      have hty : nd.ty = e.2.1 := by
        unfold entryOk at he
        rw [hn] at he
        exact of_decide_eq_true he
      have hl : s.liveAt e.1 = true := liveAt_of_node?_some hn
      rw [loadGo_cons_match s acc e rest nd hn hty,
        ih (slotUpd s e.1 e.2.2) (acc ++ [e])
          (fun x hx => entryOk_slotUpd _ _ _ _ (hrest x hx)),
        applyEntries_cons_live s e rest nd hn]
      have hfil : rest.filter (fun x => (slotUpd s e.1 e.2.2).liveAt x.1)
          = rest.filter (fun x => s.liveAt x.1) :=
        List.filter_congr (fun x _ => by rw [liveAt_slotUpd])
      rw [hfil]
      simp [List.filter_cons, hl]

theorem loadGo_registry (l : Snapshot) : ∀ (s : St) (acc : Snapshot),
    ((loadGo s acc l).state).registry = s.registry := by
  induction l with
  | nil => intro s acc; rfl
  | cons e rest ih =>
    intro s acc
    cases hn : s.node? e.1 with
    | none => rw [loadGo_cons_dead s acc e rest hn]; exact ih s acc
    | some nd =>
      by_cases hty : nd.ty = e.2.1
      · rw [loadGo_cons_match s acc e rest nd hn hty]
        exact ih (slotUpd s e.1 e.2.2) (acc ++ [e])
      · rw [loadGo_cons_mismatch s acc e rest nd hn hty]
        rfl

theorem loadGo_isOk_snap (l : Snapshot) : ∀ (s : St) (acc : Snapshot),
    (loadGo s acc l).isOk = true →
    (loadGo s acc l).snap = acc ++ l.filter (fun e => s.liveAt e.1) := by
  induction l with
  | nil =>
    intro s acc _
    show acc = acc ++ []
    rw [List.append_nil]
  | cons e rest ih =>
    intro s acc hok
    cases hn : s.node? e.1 with
    | none =>
      have hl : s.liveAt e.1 = false := liveAt_of_node?_none hn
      rw [loadGo_cons_dead s acc e rest hn] at hok ⊢
      rw [ih s acc hok]
      simp [List.filter_cons, hl]
    | some nd =>
      by_cases hty : nd.ty = e.2.1
      · have hl : s.liveAt e.1 = true := liveAt_of_node?_some hn
        rw [loadGo_cons_match s acc e rest nd hn hty] at hok ⊢
        rw [ih (slotUpd s e.1 e.2.2) (acc ++ [e]) hok]
        have hfil : rest.filter (fun x => (slotUpd s e.1 e.2.2).liveAt x.1)
            = rest.filter (fun x => s.liveAt x.1) :=
          List.filter_congr (fun x _ => by rw [liveAt_slotUpd])
        rw [hfil]
        simp [List.filter_cons, hl]
      · rw [loadGo_cons_mismatch s acc e rest nd hn hty] at hok
        exact absurd hok (by simp [LoadResult.isOk])

theorem loadGo_typeErr (front : Snapshot) :
    ∀ (s : St) (acc : Snapshot) (b : Nat × Ty × Option Val) (rest : Snapshot) (nd : NodeSt),
    (∀ e ∈ front, entryOk s e = true) → s.node? b.1 = some nd → nd.ty ≠ b.2.1 →
    loadGo s acc (front ++ b :: rest)
      = LoadResult.typeErr (applyEntries s front)
          (acc ++ front.filter (fun e => s.liveAt e.1) ++ b :: rest) := by
  induction front with
  | nil =>
    intro s acc b rest nd hok hn hty
    rw [List.nil_append, loadGo_cons_mismatch s acc b rest nd hn hty]
    show LoadResult.typeErr s (acc ++ b :: rest)
      = LoadResult.typeErr s (acc ++ [] ++ b :: rest)
    rw [List.append_nil]
  | cons e front' ih =>
    intro s acc b rest nd hok hn hty
    have he := hok e (by simp)
    have hok' : ∀ x ∈ front', entryOk s x = true := fun x hx => hok x (by simp [hx])
    rw [show (e :: front') ++ b :: rest = e :: (front' ++ b :: rest) from rfl]
    cases hne : s.node? e.1 with
    | none =>
      have hl : s.liveAt e.1 = false := liveAt_of_node?_none hne
      rw [loadGo_cons_dead s acc e _ hne, ih s acc b rest nd hok' hn hty,
        applyEntries_cons_dead s e front' hne]
      simp [List.filter_cons, hl]
    | some nde =>
      have htye : nde.ty = e.2.1 := by
        unfold entryOk at he
        rw [hne] at he
        exact of_decide_eq_true he
      have hl : s.liveAt e.1 = true := liveAt_of_node?_some hne
      rw [loadGo_cons_match s acc e _ nde hne htye]
      have hnb : ∃ nd', (slotUpd s e.1 e.2.2).node? b.1 = some nd' ∧ nd'.ty = nd.ty := by
        rw [node?_slotUpd]
        by_cases hbe : b.1 = e.1
        · rw [if_pos hbe, hn]
          exact ⟨setSlot e.2.2 nd, rfl, rfl⟩
        · rw [if_neg hbe, hn]
          exact ⟨nd, rfl, rfl⟩
      obtain ⟨nd', hnb', htnd'⟩ := hnb
      rw [ih (slotUpd s e.1 e.2.2) (acc ++ [e]) b rest nd'
        (fun x hx => entryOk_slotUpd _ _ _ _ (hok' x hx)) hnb' (by rw [htnd']; exact hty),
        applyEntries_cons_live s e front' nde hne]
      have hfil : front'.filter (fun x => (slotUpd s e.1 e.2.2).liveAt x.1)
          = front'.filter (fun x => s.liveAt x.1) :=
        List.filter_congr (fun x _ => by rw [liveAt_slotUpd])
      rw [hfil]
      simp [List.filter_cons, hl]

theorem dumpGo_cons_live (s : St) (i : Nat) (rest : List Nat) (nd : NodeSt)
    (h : s.node? i = some nd) :
    dumpGo s (i :: rest)
      = (i :: (dumpGo s rest).1, (i, nd.ty, nd.slot) :: (dumpGo s rest).2) := by
  show (match s.node? i with
    | some nd =>
      let p := dumpGo s rest
      ((i :: p.1, (i, nd.ty, nd.slot) :: p.2) : List Nat × Snapshot)
    | none => dumpGo s rest) = _
  rw [h]

theorem dumpGo_cons_dead (s : St) (i : Nat) (rest : List Nat)
    (h : s.node? i = none) :
    dumpGo s (i :: rest) = dumpGo s rest := by
  show (match s.node? i with
    | some nd =>
      let p := dumpGo s rest
      ((i :: p.1, (i, nd.ty, nd.slot) :: p.2) : List Nat × Snapshot)
    | none => dumpGo s rest) = _
  rw [h]

theorem dumpGo_entries (s : St) (reg : List Nat) :
    ∀ e ∈ (dumpGo s reg).2, ∃ nd, s.node? e.1 = some nd ∧ e.2.1 = nd.ty ∧ e.2.2 = nd.slot := by
  induction reg with
  | nil => intro e he; cases he
  | cons i rest ih =>
    intro e he
    cases hn : s.node? i with
    | none =>
      rw [dumpGo_cons_dead s i rest hn] at he
      exact ih e he
    | some nd =>
      rw [dumpGo_cons_live s i rest nd hn] at he
      rcases List.mem_cons.mp he with rfl | he'
      · exact ⟨nd, hn, rfl, rfl⟩
      · exact ih e he'

theorem dumpGo_mem_of (s : St) (reg : List Nat) :
    ∀ i nd, i ∈ reg → s.node? i = some nd → (i, nd.ty, nd.slot) ∈ (dumpGo s reg).2 := by
  induction reg with
  | nil => intro i nd hi _; cases hi
  | cons r rest ih =>
    intro i nd hi hn
    rcases List.mem_cons.mp hi with rfl | hi'
    · rw [dumpGo_cons_live s i rest nd hn]
      exact List.mem_cons_self _ _
    · cases hr : s.node? r with
      | none =>
        rw [dumpGo_cons_dead s r rest hr]
        exact ih i nd hi' hn
      | some ndr =>
        rw [dumpGo_cons_live s r rest ndr hr]
        exact List.mem_cons_of_mem _ (ih i nd hi' hn)

theorem dumpGo_registry (s : St) (reg : List Nat) :
    (dumpGo s reg).1 = reg.filter (fun i => s.liveAt i) := by
  induction reg with
  | nil => rfl
  | cons i rest ih =>
    cases hn : s.node? i with
    | none =>
      rw [dumpGo_cons_dead s i rest hn]
      simp [List.filter_cons, liveAt_of_node?_none hn, ih]
    | some nd =>
      rw [dumpGo_cons_live s i rest nd hn]
      simp [List.filter_cons, liveAt_of_node?_some hn, ih]

theorem slotUpd_id (s : St) (i : Nat) (nd : NodeSt) (h : s.nodes.get? i = some nd) :
    slotUpd s i nd.slot = s := by
  have hupd : updAt s.nodes i (setSlot nd.slot) = s.nodes := by
    refine updAt_id s.nodes i (setSlot nd.slot) (fun nd' hnd' => ?_)
    have : nd' = nd := by
      have h2 := h ▸ hnd'
      injection h2 with h2
      exact h2.symm
    rw [this]
    rfl
  show ({ s with nodes := updAt s.nodes i (setSlot nd.slot) } : St) = s
  rw [hupd]

theorem applyEntries_id (l : Snapshot) : ∀ s : St,
    (∀ e ∈ l, ∀ nd, s.node? e.1 = some nd → e.2.2 = nd.slot) → applyEntries s l = s := by
  induction l with
  | nil => intro s _; rfl
  | cons e rest ih =>
    intro s hyp
    cases hn : s.node? e.1 with
    | none =>
      rw [applyEntries_cons_dead s e rest hn]
      exact ih s (fun x hx => hyp x (by simp [hx]))
    | some nd =>
      rw [applyEntries_cons_live s e rest nd hn]
      have hv : e.2.2 = nd.slot := hyp e (by simp) nd hn
      rw [hv, slotUpd_id s e.1 nd (node?_some_iff.mp hn).1]
      exact ih s (fun x hx => hyp x (by simp [hx]))

theorem applyEntries_liveAt (l : Snapshot) : ∀ (s : St) (j : Nat),
    (applyEntries s l).liveAt j = s.liveAt j := by
  induction l with
  | nil => intro s j; rfl
  | cons e rest ih =>
    intro s j
    cases hn : s.node? e.1 with
    | none => rw [applyEntries_cons_dead s e rest hn]; exact ih s j
    | some nd =>
      rw [applyEntries_cons_live s e rest nd hn]
      rw [ih (slotUpd s e.1 e.2.2) j]
      exact liveAt_slotUpd s e.1 j e.2.2

theorem applyEntries_slot_absent (l : Snapshot) : ∀ (s : St) (i : Nat),
    (∀ e ∈ l, e.1 ≠ i) → (applyEntries s l).slotAt i = s.slotAt i := by
  induction l with
  | nil => intro s i _; rfl
  | cons e rest ih =>
    intro s i hne
    have hei : e.1 ≠ i := hne e (by simp)
    cases hn : s.node? e.1 with
    | none =>
      rw [applyEntries_cons_dead s e rest hn]
      exact ih s i (fun x hx => hne x (by simp [hx]))
    | some nd =>
      rw [applyEntries_cons_live s e rest nd hn]
      rw [ih (slotUpd s e.1 e.2.2) i (fun x hx => hne x (by simp [hx]))]
      exact slotAt_upd_ne s e.1 i (setSlot e.2.2) (fun hc => hei hc.symm)

theorem applyEntries_slot_last (l : Snapshot) : ∀ (s : St) (i : Nat) (w : Option Val),
    s.liveAt i = true → (∃ e ∈ l, e.1 = i) → (∀ e ∈ l, e.1 = i → e.2.2 = w) →
    ((applyEntries s l).slotAt i) = some w := by
  induction l with
  | nil =>
    rintro s i w _ ⟨e, he, _⟩ _
    cases he
  | cons e rest ih =>
    intro s i w hl hex hall
    by_cases hei : e.1 = i
    · obtain ⟨nd, hn⟩ := liveAt_true_iff.mp hl
      have hne : s.node? e.1 = some nd := by rw [hei]; exact hn
      have hv : e.2.2 = w := hall e (by simp) hei
      rw [applyEntries_cons_live s e rest nd hne]
      by_cases hrest : ∃ x ∈ rest, x.1 = i
      · exact ih (slotUpd s e.1 e.2.2) i w (by rw [liveAt_slotUpd]; exact hl) hrest
          (fun x hx hxi => hall x (by simp [hx]) hxi)
      · push_neg at hrest
        rw [applyEntries_slot_absent rest _ i hrest, hei, hv]
        obtain ⟨hlt, _⟩ := List.get?_eq_some.mp (node?_some_iff.mp hn).1
        exact slotAt_slotUpd_self_of_lt s i w hlt
    · have hex' : ∃ x ∈ rest, x.1 = i := by
        obtain ⟨x, hx, hxi⟩ := hex
        rcases List.mem_cons.mp hx with rfl | hx'
        · exact absurd hxi hei
        · exact ⟨x, hx', hxi⟩
      cases hn : s.node? e.1 with
      | none =>
        rw [applyEntries_cons_dead s e rest hn]
        exact ih s i w hl hex' (fun x hx => hall x (by simp [hx]))
      | some nd =>
        rw [applyEntries_cons_live s e rest nd hn]
        exact ih (slotUpd s e.1 e.2.2) i w (by rw [liveAt_slotUpd]; exact hl) hex'
          (fun x hx hxi => hall x (by simp [hx]) hxi)

theorem rootSet_of_none (s : St) (i : Nat) (v : Val) (h : s.node? i = none) :
    rootSet s i v = s := by
  unfold rootSet
  rw [h]

theorem rootSet_of_source (s : St) (i : Nat) (v : Val) (nd : NodeSt)
    (h : s.node? i = some nd) (hk : nd.kind = Kind.source) :
    rootSet s i v = slotUpd (unsetFuel (s.nodes.length + 1) s i true) i (some v) := by
  obtain ⟨k, t, fn, ups, slot, cnt, lv, dn⟩ := nd
  cases hk
  unfold rootSet
  rw [h]
  rfl

theorem rootSet_of_nonsource (s : St) (i : Nat) (v : Val) (nd : NodeSt)
    (h : s.node? i = some nd) (hk : nd.kind ≠ Kind.source) :
    rootSet s i v = s := by
  unfold rootSet
  rw [h]
  show (if nd.kind = Kind.source then
    slotUpd (unsetFuel (s.nodes.length + 1) s i true) i (some v) else s) = s
  rw [if_neg hk]

theorem tyAt_applyOp (s : St) (op : Op) (j : Nat) : (applyOp s op).tyAt j = s.tyAt j := by
  cases op with
  | set i v =>
    show (rootSet s i v).tyAt j = s.tyAt j
    cases hn : s.node? i with
    | none => rw [rootSet_of_none s i v hn]
    | some nd =>
      by_cases hk : nd.kind = Kind.source
      · rw [rootSet_of_source s i v nd hn hk]
        rw [tyAt_slotUpd]
        exact ((unsetFuel_presC (s.nodes.length + 1) s i true).1.ty j)
      · rw [rootSet_of_nonsource s i v nd hn hk]
  | get i =>
    show ((get s i).2).tyAt j = s.tyAt j
    exact (getFuel_pres (s.nodes.length + 1) s i).ty j
  | invalidate i =>
    show (match s.node? i with
      | some _ => unsetFuel (s.nodes.length + 1) s i true
      | none => s).tyAt j = s.tyAt j
    cases hn : s.node? i with
    | none => rfl
    | some nd => exact ((unsetFuel_presC (s.nodes.length + 1) s i true).1.ty j)
  | destroy i =>
    exact tyAt_upd s i j _ (fun _ => rfl)

theorem tyAt_applyOps (ops : List Op) : ∀ (s : St) (j : Nat),
    (applyOps s ops).tyAt j = s.tyAt j := by
  induction ops with
  | nil => intro s j; rfl
  | cons op rest ih =>
    intro s j
    show (applyOps (applyOp s op) rest).tyAt j = s.tyAt j
    rw [ih (applyOp s op) j, tyAt_applyOp]

theorem downAt_upd_self (s : St) (i : Nat) (f : NodeSt → NodeSt) :
    (s.upd i f).downAt i = (s.nodes.get? i).map (fun n => (f n).downstream) := by
  unfold St.downAt St.upd
  rw [show ({ s with nodes := updAt s.nodes i f } : St).nodes = updAt s.nodes i f from rfl,
    get?_updAt_self]
  cases s.nodes.get? i <;> simp

theorem addEdge_presC (s : St) (u k : Nat) : PresC s (addEdge s u k) :=
  presC_upd s u _ (fun _ => rfl) (fun _ => rfl) (fun _ => rfl) (fun _ => rfl)
    (fun _ => rfl) (fun _ => rfl)

theorem addEdge_slotAt (s : St) (u k j : Nat) : (addEdge s u k).slotAt j = s.slotAt j :=
  slotAt_upd s u j _ (fun _ => rfl)

theorem addEdge_downAt_ne (s : St) (u k j : Nat) (h : j ≠ u) :
    (addEdge s u k).downAt j = s.downAt j :=
  downAt_upd_ne s u j _ h

theorem addEdge_downAt_self (s : St) (u k : Nat) :
    (addEdge s u k).downAt u = (s.downAt u).map (fun d => d ++ [k]) := by
  show (s.upd u _).downAt u = _
  rw [downAt_upd_self]
  unfold St.downAt
  cases s.nodes.get? u <;> simp

theorem foldl_addEdge_presC (l : List Nat) (k : Nat) :
    ∀ s : St, PresC s (l.foldl (fun acc u => addEdge acc u k) s) := by
  induction l with
  | nil => intro s; exact presC_refl s
  | cons u rest ih =>
    intro s
    exact presC_trans (addEdge_presC s u k) (ih (addEdge s u k))

theorem foldl_addEdge_slotAt (l : List Nat) (k : Nat) :
    ∀ (s : St) (j : Nat), (l.foldl (fun acc u => addEdge acc u k) s).slotAt j = s.slotAt j := by
  induction l with
  | nil => intro s j; rfl
  | cons u rest ih =>
    intro s j
    show (rest.foldl (fun acc u => addEdge acc u k) (addEdge s u k)).slotAt j = s.slotAt j
    rw [ih (addEdge s u k) j, addEdge_slotAt]

theorem foldl_addEdge_downAt (l : List Nat) (k : Nat) :
    ∀ (s : St) (j : Nat), (l.foldl (fun acc u => addEdge acc u k) s).downAt j
      = (s.downAt j).map (fun d => d ++ List.replicate (l.count j) k) := by
  induction l with
  | nil =>
    intro s j
    show s.downAt j = (s.downAt j).map (fun d => d ++ List.replicate (List.count j []) k)
    cases s.downAt j <;> simp
  | cons u rest ih =>
    intro s j
    show (rest.foldl (fun acc u => addEdge acc u k) (addEdge s u k)).downAt j = _
    rw [ih (addEdge s u k) j]
    by_cases hj : j = u
    · subst hj
      rw [addEdge_downAt_self]
      cases o : s.downAt j with
      | none => simp
      | some d =>
        show some ((d ++ [k]) ++ List.replicate (List.count j rest) k)
          = some (d ++ List.replicate (List.count j (j :: rest)) k)
        rw [List.count_cons_self j rest, List.replicate_succ k (List.count j rest),
          List.append_assoc]
        rfl
    · rw [addEdge_downAt_ne s u k j hj]
      rw [List.count_cons_of_ne hj rest]

theorem get?_append_lt (l : List NodeSt) (x : NodeSt) (j : Nat) (h : j < l.length) :
    (l ++ [x]).get? j = l.get? j := List.get?_append h

/-- C1 witness: the worked scenario's memoized node D, freshly built, read
twice. -/
theorem memoized_get_twice_witness :
    getFuel 5 (getFuel 5 sD 3).2 3 = (some (Val.vint 3), (getFuel 5 sD 3).2) ∧
    ((getFuel 5 sD 3).2).countAt 3 = (sD.countAt 3).map (· + 1) := by
  refine memoized_get_twice 5 sD ((getFuel 5 sD 3).2) 3 (Val.vint 3) (by decide) (by decide)
    (by decide) ?_
  have h : (getFuel 5 sD 3).1 = some (Val.vint 3) := by decide
  exact Prod.ext h rfl

/-- C2 counterexample: in the worked scenario the first three reads check
out (C.get() = 3, D.get() = 3, after A.set(233) D.get() = 54755), but
after B.set(666) the code returns (233+666)*233 = 209467, not the 209567
the claim states. -/
theorem worked_scenario_cex :
    (get sC 2).1 = some (Val.vint 3) ∧
    (get sD 3).1 = some (Val.vint 3) ∧
    (get sSet233 3).1 = some (Val.vint 54755) ∧
    (get sSet666 3).1 ≠ some (Val.vint 209567) := by
  decide

/-- C2 (amended): the worked scenario with the arithmetic carried out
correctly — the final read returns (233+666)*233 = 209467. -/
theorem worked_scenario :
    (get sC 2).1 = some (Val.vint 3) ∧
    (get sD 3).1 = some (Val.vint 3) ∧
    (get sSet233 3).1 = some (Val.vint 54755) ∧
    (get sSet666 3).1 = some (Val.vint 209467) := by
  decide

/-- C3 counterexample: `get` on a never-set source is a null-pointer
dereference (undefined behavior, modelled `ub`), not a caller-visible
`UninitializedRead` error value. -/
theorem source_get_unset_cex :
    rootGet sEmptyRoot 0 ≠ Outcome.err LazyError.uninitRead ∧
    rootGet sEmptyRoot 0 = Outcome.ub := by
  decide

/-- C3 (amended): reading a live source whose slot was never filled
dereferences the null `shared_ptr` — undefined behavior, modelled by the
`ub` outcome — and `rootGet` performs no state mutation (it does not
return a state at all); if a value has been set, `get` returns exactly
that current value. -/
theorem source_get_amended (s : St) (i : Nat) (nd : NodeSt)
    (h : s.node? i = some nd) (hk : nd.kind = Kind.source) :
    (nd.slot = none → rootGet s i = Outcome.ub) ∧
    (∀ v, nd.slot = some v → rootGet s i = Outcome.ok v) ∧
    (∀ f, (getFuel f s i).2 = s) := by
  obtain ⟨k, t, fn, ups, slot, cnt, lv, dn⟩ := nd
  cases hk
  refine ⟨?_, ?_, ?_⟩
  · intro hs
    cases hs
    unfold rootGet
    rw [h]
  · intro v hv
    cases hv
    unfold rootGet
    rw [h]
  · intro f
    cases f with
    | zero => rfl
    | succ f =>
      rw [getFuel_succ, getCore_of_source (getFuel f) s i _ h rfl]

/-- C3 witness: the amended statement evaluated on a never-set source and
on `A = Root(1)`. -/
theorem source_get_amended_witness :
    rootGet sEmptyRoot 0 = Outcome.ub ∧ rootGet sA 0 = Outcome.ok (Val.vint 1) ∧
    (getFuel 3 sA 0).2 = sA :=
  ⟨(source_get_amended sEmptyRoot 0
      ⟨Kind.source, Ty.tint, fun _ => Val.vint 0, [], none, 0, true, []⟩ rfl rfl).1 rfl,
   (source_get_amended sA 0
      ⟨Kind.source, Ty.tint, fun _ => Val.vint 0, [], some (Val.vint 1), 0, true, []⟩
      rfl rfl).2.1 (Val.vint 1) rfl,
   (source_get_amended sA 0
      ⟨Kind.source, Ty.tint, fun _ => Val.vint 0, [], some (Val.vint 1), 0, true, []⟩
      rfl rfl).2.2 3⟩

/-- C4: evaluation of the combinator C of the worked scenario.  In the
model each `get` invokes the closure exactly once and yields the function
of the current upstream values (two reads, two invocations, value 3 both
times).  The C++ `path::get`, however, binds the closure's by-value
result to a local `const auto&` and returns that reference; the
referent's lifetime ends when `get` returns, so the caller receives a
dangling reference (undefined behavior) instead of the well-defined
by-value result the claim describes. -/
theorem combinator_get_per_call :
    (get sC 2).1 = some (Val.vint 3) ∧
    sC.countAt 2 = some 0 ∧
    ((get sC 2).2).countAt 2 = some 1 ∧
    (get (get sC 2).2 2).1 = some (Val.vint 3) ∧
    ((get (get sC 2).2 2).2).countAt 2 = some 2 := by
  decide

/-- C5 counterexample: loading a snapshot whose second entry has the wrong
payload type aborts with the type error, but the first entry has already
overwritten node 0's slot — the graph is partially mutated. -/
theorem load_mismatch_cex :
    (loadGraph sP snapBad).isOk = false ∧
    (loadGraph sP snapBad).state.slotAt 0 = some (some (Val.vint 99)) ∧
    sP.slotAt 0 = some (some (Val.vint 1)) := by
  decide

/-- C5 (amended): a type-mismatching entry makes `load` abort with a
caller-visible error (the propagated `std::bad_any_cast`), but the abort
is not atomic: every entry before the mismatching one has already been
applied to the graph (and dead entries before it pruned from the
snapshot); the mismatching entry and everything after it are left
unapplied. -/
theorem load_mismatch_aborts (s : St) (front : Snapshot) (b : Nat × Ty × Option Val)
    (rest : Snapshot) (nd : NodeSt)
    (hok : ∀ e ∈ front, entryOk s e = true)
    (hn : s.node? b.1 = some nd) (hty : nd.ty ≠ b.2.1) :
    loadGraph s (front ++ b :: rest)
      = LoadResult.typeErr (applyEntries s front)
          (front.filter (fun e => s.liveAt e.1) ++ b :: rest) := by
  show loadGo s [] (front ++ b :: rest) = _
  rw [loadGo_typeErr front s [] b rest nd hok hn hty, List.nil_append]

/-- C5 witness: the two-source mismatch scenario. -/
theorem load_mismatch_aborts_witness :
    loadGraph sP ([(0, Ty.tint, some (Val.vint 99))] ++ (1, Ty.tint, some (Val.vint 7)) :: [])
      = LoadResult.typeErr (applyEntries sP [(0, Ty.tint, some (Val.vint 99))])
          ([(0, Ty.tint, some (Val.vint 99))].filter (fun e => sP.liveAt e.1)
            ++ (1, Ty.tint, some (Val.vint 7)) :: []) :=
  load_mismatch_aborts sP [(0, Ty.tint, some (Val.vint 99))] (1, Ty.tint, some (Val.vint 7)) []
    ⟨Kind.source, Ty.tbool, fun _ => Val.vint 0, [], some (Val.vbool true), 0, true, []⟩
    (by decide) rfl (by decide)

/-- C6: `dump()` immediately followed by `load()` of the produced snapshot
succeeds, and leaves every node of the arena — its slot and its ghost
invocation counter included — exactly as it was before the pair: every
registered node's externally observed value is restored and no
recomputation closure runs. -/
theorem dump_load_roundtrip (s : St) :
    (loadGraph (dumpGraph s).1 (dumpGraph s).2).isOk = true ∧
    ((loadGraph (dumpGraph s).1 (dumpGraph s).2).state).nodes = s.nodes := by
  have hentries := dumpGo_entries s s.registry
  have hok : ∀ e ∈ (dumpGo s s.registry).2,
      entryOk ({ s with registry := (dumpGo s s.registry).1 } : St) e = true := by
    intro e he
    obtain ⟨nd, hn, hty, _⟩ := hentries e he
    unfold entryOk
    rw [show ({ s with registry := (dumpGo s s.registry).1 } : St).node? e.1
      = s.node? e.1 from rfl, hn, hty]
    simp
  have hLG := loadGo_ok (dumpGo s s.registry).2
    ({ s with registry := (dumpGo s s.registry).1 } : St) [] hok
  have hid : applyEntries ({ s with registry := (dumpGo s s.registry).1 } : St)
      (dumpGo s s.registry).2 = ({ s with registry := (dumpGo s s.registry).1 } : St) := by
    refine applyEntries_id _ _ (fun e he nd hn => ?_)
    obtain ⟨nd0, hn0, _, hslot0⟩ := hentries e he
    have hnd : nd = nd0 := by
      have h2 : s.node? e.1 = some nd := hn
      rw [hn0] at h2
      injection h2 with h2
      exact h2.symm
    rw [hnd]
    exact hslot0
  constructor
  · show (loadGo ({ s with registry := (dumpGo s s.registry).1 } : St) []
      (dumpGo s s.registry).2).isOk = true
    rw [hLG]
    rfl
  · show ((loadGo ({ s with registry := (dumpGo s s.registry).1 } : St) []
      (dumpGo s s.registry).2).state).nodes = s.nodes
    rw [hLG]
    show (applyEntries ({ s with registry := (dumpGo s s.registry).1 } : St)
      (dumpGo s s.registry).2).nodes = s.nodes
    rw [hid]

/-- C7 counterexample: a registry holding one destroyed node keeps its dead
entry across a `load` whose snapshot names exactly that node — `load`
prunes the snapshot (the returned snapshot is empty) but never touches
the registry's own list. -/
theorem load_registry_unpruned_cex :
    (loadGraph sDead [(0, Ty.tint, some (Val.vint 5))]).isOk = true ∧
    (loadGraph sDead [(0, Ty.tint, some (Val.vint 5))]).state.registry = [0] ∧
    (loadGraph sDead [(0, Ty.tint, some (Val.vint 5))]).state.liveAt 0 = false ∧
    (loadGraph sDead [(0, Ty.tint, some (Val.vint 5))]).snap = [] := by
  decide

/-- C7 (amended): `dump` prunes the registry's own list (after it returns
the registry holds exactly its live entries, in order); `load` leaves the
registry untouched and instead prunes the snapshot it was handed — on a
fully applied (ok) walk the surviving snapshot is exactly its live
entries. -/
theorem prune_dump_load_amended :
    (∀ s : St, ((dumpGraph s).1).registry = s.registry.filter (fun i => s.liveAt i)) ∧
    (∀ (s : St) (snap : Snapshot), ((loadGraph s snap).state).registry = s.registry) ∧
    (∀ (s : St) (snap : Snapshot), (loadGraph s snap).isOk = true →
      (loadGraph s snap).snap = snap.filter (fun e => s.liveAt e.1)) := by
  refine ⟨?_, ?_, ?_⟩
  · intro s
    show (dumpGo s s.registry).1 = s.registry.filter (fun i => s.liveAt i)
    exact dumpGo_registry s s.registry
  · intro s snap
    exact loadGo_registry snap s []
  · intro s snap h
    have hh := loadGo_isOk_snap snap s [] h
    rw [List.nil_append] at hh
    exact hh

/-- C7 witness: the amended statement at the dead-entry scenario. -/
theorem prune_dump_load_amended_witness :
    ((dumpGraph sDead).1).registry = sDead.registry.filter (fun i => sDead.liveAt i) ∧
    ((loadGraph sDead [(0, Ty.tint, some (Val.vint 5))]).state).registry = sDead.registry ∧
    (loadGraph sB []).snap = List.filter (fun e => sB.liveAt e.1) [] :=
  ⟨prune_dump_load_amended.1 sDead,
   prune_dump_load_amended.2.1 sDead [(0, Ty.tint, some (Val.vint 5))],
   prune_dump_load_amended.2.2 sB [] (by decide)⟩

theorem construction_core (s : St) (x : NodeSt) (ups : List Nat) :
    frameOnly s (ups.foldl (fun acc u => addEdge acc u s.nodes.length)
      ({ s with nodes := s.nodes ++ [x] } : St)) s.nodes.length ups ∧
    (ups.foldl (fun acc u => addEdge acc u s.nodes.length)
      ({ s with nodes := s.nodes ++ [x] } : St)).registry = s.registry ∧
    (ups.foldl (fun acc u => addEdge acc u s.nodes.length)
      ({ s with nodes := s.nodes ++ [x] } : St)).countAt s.nodes.length = some x.count := by
  have hP := foldl_addEdge_presC ups s.nodes.length ({ s with nodes := s.nodes ++ [x] } : St)
  refine ⟨?_, ?_, ?_⟩
  · intro j hj
    have happ : (s.nodes ++ [x]).get? j = s.nodes.get? j := get?_append_lt s.nodes x j hj
    refine ⟨?_, ?_, ?_, ?_, ?_, ?_, ?_, ?_⟩
    · rw [hP.2 j]
      show ((s.nodes ++ [x]).get? j).map NodeSt.count = s.countAt j
      rw [happ]
      rfl
    · rw [foldl_addEdge_slotAt ups s.nodes.length _ j]
      show ((s.nodes ++ [x]).get? j).map NodeSt.slot = s.slotAt j
      rw [happ]
      rfl
    · rw [hP.1.kind j]
      show ((s.nodes ++ [x]).get? j).map NodeSt.kind = s.kindAt j
      rw [happ]
      rfl
    · rw [hP.1.ty j]
      show ((s.nodes ++ [x]).get? j).map NodeSt.ty = s.tyAt j
      rw [happ]
      rfl
    · rw [hP.1.fn j]
      show ((s.nodes ++ [x]).get? j).map NodeSt.fn = s.fnAt j
      rw [happ]
      rfl
    · rw [hP.1.ups j]
      show ((s.nodes ++ [x]).get? j).map NodeSt.ups = s.upsAt j
      rw [happ]
      rfl
    · rw [hP.1.live j]
      show ((s.nodes ++ [x]).get? j).map NodeSt.live = s.liveRawAt j
      rw [happ]
      rfl
    · rw [foldl_addEdge_downAt ups s.nodes.length _ j]
      show (((s.nodes ++ [x]).get? j).map NodeSt.downstream).map
          (fun d => d ++ List.replicate (List.count j ups) s.nodes.length)
        = (s.downAt j).map (fun d => d ++ List.replicate (List.count j ups) s.nodes.length)
      rw [happ]
      rfl
  · exact hP.1.reg
  · rw [hP.2 s.nodes.length]
    show ((s.nodes ++ [x]).get? s.nodes.length).map NodeSt.count = some x.count
    rw [List.get?_concat_length]
    rfl

/-- C8 counterexample: building a memoized node also mutates the active
registry (a pre-existing object): the registry grows from [0] to [0, 1],
so appending downstream edges is not the only mutation of pre-existing
state. -/
theorem construction_registry_cex :
    sA.registry = [0] ∧ (mkNode sA Ty.tint fMul [0]).registry = [0, 1] := by
  decide

/-- C8 (amended): constructing a memoized node (`Node`) or a combinator
(`Path`) never invokes the supplied function (the fresh node's counter is
0 and every old counter is untouched), leaves every pre-existing node's
slot and every other field unchanged, and appends exactly one weak
downstream edge per occurrence of each upstream handle — plus, for the
memoized node only, one weak entry for the new node appended to the
active registry; the combinator is not registered. -/
theorem construction_frame (s : St) (ty : Ty) (fn : List Val → Val) (ups : List Nat) :
    frameOnly s (mkNode s ty fn ups) s.nodes.length ups ∧
    (mkNode s ty fn ups).registry = s.registry ++ [s.nodes.length] ∧
    (mkNode s ty fn ups).countAt s.nodes.length = some 0 ∧
    frameOnly s (mkPath s ty fn ups) s.nodes.length ups ∧
    (mkPath s ty fn ups).registry = s.registry ∧
    (mkPath s ty fn ups).countAt s.nodes.length = some 0 := by
  have hN := construction_core s
    ⟨Kind.memo, ty, fn, ups, none, 0, true, []⟩ ups
  have hPq := construction_core s
    ⟨Kind.comb, ty, fn, ups, none, 0, true, []⟩ ups
  exact ⟨hN.1, by rw [show (mkNode s ty fn ups).registry
      = (ups.foldl (fun acc u => addEdge acc u s.nodes.length)
        ({ s with nodes := s.nodes ++ [⟨Kind.memo, ty, fn, ups, none, 0, true, []⟩] } : St)).registry
        ++ [s.nodes.length] from rfl, hN.2.1],
    hN.2.2, hPq.1, hPq.2.1, hPq.2.2⟩

/-- C8 witness: the frame condition of construction evaluated over
`A = Root(1)`. -/
theorem construction_frame_witness :
    (mkNode sA Ty.tint fMul [0]).downAt 0
      = (sA.downAt 0).map (fun d => d ++ List.replicate (List.count 0 [0]) sA.nodes.length) ∧
    (mkNode sA Ty.tint fMul [0]).registry = sA.registry ++ [sA.nodes.length] ∧
    (mkPath sA Ty.tint fMul [0]).registry = sA.registry :=
  ⟨((construction_frame sA Ty.tint fMul [0]).1 0 (by decide)).2.2.2.2.2.2.2,
   (construction_frame sA Ty.tint fMul [0]).2.1,
   (construction_frame sA Ty.tint fMul [0]).2.2.2.2.1⟩

/-- C9: snapshots are immune to later graph mutation.  A snapshot is an
immutable value in the embedding precisely because `set` and the memoized
recomputation install freshly allocated values (`value.reset(new ...)`)
instead of mutating the object the snapshot's `shared_ptr` co-owns, and
`release` merely drops a reference.  Consequently, after `dump`, any
sequence of `set`/`get`/`invalidate`/destroy operations can run, and a
later `load` of that snapshot still succeeds and restores every surviving
dumped node's slot to exactly its dump-time value. -/
theorem snapshot_restore (s : St) (ops : List Op) (i : Nat) (nd : NodeSt)
    (hreg : i ∈ s.registry) (hnd : s.node? i = some nd)
    (hlive : (applyOps (dumpGraph s).1 ops).liveAt i = true) :
    (loadGraph (applyOps (dumpGraph s).1 ops) (dumpGraph s).2).isOk = true ∧
    ((loadGraph (applyOps (dumpGraph s).1 ops) (dumpGraph s).2).state).slotAt i
      = some nd.slot := by
  have hentries := dumpGo_entries s s.registry
  have hok : ∀ e ∈ (dumpGo s s.registry).2,
      entryOk (applyOps (dumpGraph s).1 ops) e = true := by
    intro e he
    obtain ⟨nde, hne, htye, _⟩ := hentries e he
    unfold entryOk
    cases hm : (applyOps (dumpGraph s).1 ops).node? e.1 with
    | none => rfl
    | some m =>
      have ht : (applyOps (dumpGraph s).1 ops).tyAt e.1 = s.tyAt e.1 :=
        tyAt_applyOps ops (dumpGraph s).1 e.1
      have hm' : (applyOps (dumpGraph s).1 ops).nodes.get? e.1 = some m :=
        (node?_some_iff.mp hm).1
      have hne' : s.nodes.get? e.1 = some nde := (node?_some_iff.mp hne).1
      have hty2 : some m.ty = some nde.ty := by
        have h1 : (applyOps (dumpGraph s).1 ops).tyAt e.1 = some m.ty := by
          unfold St.tyAt
          rw [hm']
          rfl
        have h2 : s.tyAt e.1 = some nde.ty := by
          unfold St.tyAt
          rw [hne']
          rfl
        rw [← h1, ht, h2]
      injection hty2 with hmty
      show decide (m.ty = e.2.1) = true
      simp [htye, hmty]
  have hLG := loadGo_ok (dumpGo s s.registry).2 (applyOps (dumpGraph s).1 ops) [] hok
  constructor
  · show (loadGo (applyOps (dumpGraph s).1 ops) [] (dumpGo s s.registry).2).isOk = true
    rw [hLG]
    rfl
  · show ((loadGo (applyOps (dumpGraph s).1 ops) [] (dumpGo s s.registry).2).state).slotAt i
      = some nd.slot
    rw [hLG]
    show (applyEntries (applyOps (dumpGraph s).1 ops) (dumpGo s s.registry).2).slotAt i
      = some nd.slot
    refine applyEntries_slot_last _ _ i nd.slot hlive ?_ ?_
    · exact ⟨(i, nd.ty, nd.slot), dumpGo_mem_of s s.registry i nd hreg hnd, rfl⟩
    · intro e he hei
      obtain ⟨nde, hne, _, hslote⟩ := hentries e he
      have hnde : nde = nd := by
        rw [hei, hnd] at hne
        injection hne with h'
        exact h'.symm
      rw [hslote, hnde]

/-- C9 witness: sources 1 and 2 are dumped, then A is overwritten, B read
and A invalidated; loading the old snapshot restores A's slot to 1. -/
theorem snapshot_restore_witness :
    (loadGraph (applyOps (dumpGraph sB).1 [Op.set 0 (Val.vint 7), Op.get 1, Op.invalidate 0])
      (dumpGraph sB).2).isOk = true ∧
    ((loadGraph (applyOps (dumpGraph sB).1 [Op.set 0 (Val.vint 7), Op.get 1, Op.invalidate 0])
      (dumpGraph sB).2).state).slotAt 0 = some (some (Val.vint 1)) :=
  snapshot_restore sB [Op.set 0 (Val.vint 7), Op.get 1, Op.invalidate 0] 0
    ⟨Kind.source, Ty.tint, fun _ => Val.vint 0, [], some (Val.vint 1), 0, true, []⟩
    (by decide) rfl (by decide)

/-- C10: dumping a registered live node with an empty value slot records
the empty box `(ty, none)` in the snapshot, and loading that entry back
succeeds and leaves the node's slot empty — no error in either
direction. -/
theorem empty_slot_dump_load (s : St) (i : Nat) (nd : NodeSt)
    (hnd : s.node? i = some nd) (hslot : nd.slot = none) (hreg : i ∈ s.registry)
    (hkind : nd.kind = Kind.source ∨ nd.kind = Kind.memo) :
    (i, nd.ty, (none : Option Val)) ∈ (dumpGraph s).2 ∧
    (loadGraph s [(i, nd.ty, none)]).isOk = true ∧
    ((loadGraph s [(i, nd.ty, none)]).state).slotAt i = some none := by
  have hmem := dumpGo_mem_of s s.registry i nd hreg hnd
  rw [hslot] at hmem
  have hload : loadGraph s [(i, nd.ty, none)]
      = LoadResult.ok (slotUpd s i none) [(i, nd.ty, none)] := by
    show loadGo s [] [(i, nd.ty, none)] = _
    rw [loadGo_cons_match s [] (i, nd.ty, none) [] nd hnd rfl]
    rfl
  refine ⟨hmem, ?_, ?_⟩
  · rw [hload]
    rfl
  · rw [hload]
    show (slotUpd s i none).slotAt i = some none
    obtain ⟨hlt, _⟩ := List.get?_eq_some.mp (node?_some_iff.mp hnd).1
    exact slotAt_slotUpd_self_of_lt s i none hlt

/-- C10 witness: a never-set registered source. -/
theorem empty_slot_dump_load_witness :
    (0, Ty.tint, (none : Option Val)) ∈ (dumpGraph sEmptyRoot).2 ∧
    (loadGraph sEmptyRoot [(0, Ty.tint, none)]).isOk = true ∧
    ((loadGraph sEmptyRoot [(0, Ty.tint, none)]).state).slotAt 0 = some none :=
  empty_slot_dump_load sEmptyRoot 0
    ⟨Kind.source, Ty.tint, fun _ => Val.vint 0, [], none, 0, true, []⟩
    rfl rfl (by decide) (Or.inl rfl)

end lazy
